import Mathlib

/-!
Shallow embedding of the `MealPlanner` class of `meal-planner-streamlit.py`,
together with proofs about its operations.

Modelling conventions:
* Python dicts are association lists `List (key × value)` kept in insertion
  order.  A real dict additionally keeps its keys distinct; theorems that need
  this state it as a `Nodup` hypothesis on the key list.
* `random.choice(xs)` is modelled by an oracle: each call consumes one natural
  number `k` from a tape and returns `xs[k % len(xs)]`.  Quantifying over all
  tapes covers every run the random generator could produce, and every element
  of `xs` is reachable by some `k`.
* Exceptions are modelled by result types that carry the state at the moment
  the exception escapes, so "no mutation on failure" is expressible.
-/

structure Recipe where
  name : String
  category : String
  ingredients : List (String × Int)
  units : List (String × String)
  deriving DecidableEq

/-- `name.startswith('Lunch - ')`: the prefix test on the code-point lists.
(Lean's builtin `String.startsWith` is the same test but is computed through
UTF-8 byte positions, which do not reduce in the kernel.) -/
def pyStartsWith (s marker : String) : Bool :=
  marker.data.isPrefixOf s.data

instance : Inhabited Recipe := ⟨⟨"", "", [], []⟩⟩

/-- `random.choice(xs)` on recipes: oracle value `k` picks index `k % xs.length`. -/
def pyChoice (xs : List Recipe) (k : Nat) : Recipe :=
  xs.getD (k % xs.length) default

/-- `random.choice(xs)` on strings: oracle value `k` picks index `k % xs.length`. -/
def pyChoiceStr (xs : List String) (k : Nat) : String :=
  xs.getD (k % xs.length) ""

structure MealPlanner where
  lunch_recipes : List Recipe
  dinner_recipes : List Recipe
  selected_lunch : Option Recipe
  selected_dinners : List (Option Recipe)
  deriving DecidableEq

/-- `MealPlanner.__init__` after a successful `json.load`: partition the catalog
by the `"Lunch - "` name marker; `selected_lunch = None`,
`selected_dinners = []` (the empty list, not five empty slots). -/
def MealPlanner.init (recipes : List Recipe) : MealPlanner :=
  { lunch_recipes := recipes.filter (fun r => pyStartsWith r.name "Lunch - ")
    dinner_recipes := recipes.filter (fun r => !(pyStartsWith r.name "Lunch - "))
    selected_lunch := none
    selected_dinners := [] }

/-- Python compares strings lexicographically by code point.  Lean's builtin
`String` order is the same relation, but its `Decidable` instance goes through
UTF-8 iterators and does not reduce in the kernel, so the comparison is
modelled directly on the character lists (see `pyStrLe_iff_le`). -/
def pyCharListLe : List Char → List Char → Bool
  | [], _ => true
  | _ :: _, [] => false
  | a :: as, b :: bs => if a < b then true else if b < a then false else pyCharListLe as bs

/-- Python `a <= b` on strings. -/
def pyStrLe (a b : String) : Bool := pyCharListLe a.data b.data

/-- `get_categories`: `sorted(set(r['category'] for r in recipes))`, modelling
`sorted` by a stable sort under the code-point order. -/
def MealPlanner.get_categories (p : MealPlanner) (meal_type : String) : List String :=
  let recipes := if meal_type = "lunch" then p.lunch_recipes else p.dinner_recipes
  ((recipes.map (fun r => r.category)).dedup).insertionSort (fun a b => pyStrLe a b = true)

inductive LunchResult where
  /-- Normal return: the updated planner and the chosen recipe. -/
  | ok (p : MealPlanner) (r : Recipe)
  /-- `ValueError("No lunch recipes found for category: ...")`; carries the
  planner, unchanged. -/
  | noMatch (p : MealPlanner)
  /-- `IndexError` raised by `random.choice` on an empty sequence; carries the
  planner, unchanged. -/
  | indexErr (p : MealPlanner)
  deriving DecidableEq

/-- Python truthiness of an `Optional[str]`: `None` and `""` are falsy. -/
def truthyOptStr : Option String → Bool
  | none => false
  | some s => s != ""

/-- `generate_lunch`: filter the lunch pool when a truthy category is given
(raising `ValueError` if the filter comes back empty), then pick uniformly at
random and overwrite `selected_lunch`. -/
def MealPlanner.generate_lunch (p : MealPlanner) (category : Option String) (k : Nat) :
    LunchResult :=
  let available := p.lunch_recipes
  if truthyOptStr category then
    let available2 := available.filter (fun r => r.category == category.getD "")
    if available2.isEmpty then
      LunchResult.noMatch p
    else
      let r := pyChoice available2 k
      LunchResult.ok { p with selected_lunch := some r } r
  else
    if available.isEmpty then
      LunchResult.indexErr p
    else
      let r := pyChoice available k
      LunchResult.ok { p with selected_lunch := some r } r

inductive GenResult where
  /-- Normal return: updated planner, final contents of the caller's (mutated
  in place) quota dict, and the returned `new_dinners` list
  (equal to the planner's new `selected_dinners`). -/
  | ok (p : MealPlanner) (quota : List (String × Int)) (dinners : List (Option Recipe))
  /-- `ValueError` raised by the quota validation; carries the planner and the
  quota dict exactly as passed (nothing was touched yet) plus the two totals
  interpolated into the message. -/
  | quotaErr (p : MealPlanner) (quota : List (String × Int)) (expected actual : Int)
  /-- `TypeError` from `self.selected_dinners[idx]['category']` when a locked
  slot holds `None`; carries the planner (unchanged) and the quota dict as
  mutated so far. -/
  | typeErr (p : MealPlanner) (quota : List (String × Int))
  deriving DecidableEq

/-- In-place `category_limits[cat] -= 1` on a dict modelled as an assoc list:
every pair whose key is `cat` is decremented in place (a real dict has exactly
one such pair). -/
def decrAll (q : List (String × Int)) (cat : String) : List (String × Int) :=
  q.map (fun kv => if kv.1 = cat then (kv.1, kv.2 - 1) else kv)

/-- `if cat in category_limits: category_limits[cat] -= 1`. -/
def decrIfMem (q : List (String × Int)) (cat : String) : List (String × Int) :=
  if (q.lookup cat).isSome then decrAll q cat else q

/-- The "Keep locked meals" loop: for each locked index passing
`0 <= idx < len(self.selected_dinners)` (the further `and self.selected_dinners`
test is implied by that bound) copy `self.selected_dinners[idx]` into
`new_dinners[idx]` and decrement the quota for the kept recipe's category when
that category is a key of the dict.  `Except.error` is the `TypeError` raised
by `None['category']` when the kept entry is `None`; it carries the quota dict
as mutated so far (the planner itself has not been touched). -/
def lockLoop (prior : List (Option Recipe)) :
    List Nat → List (Option Recipe) → List (String × Int) →
      Except (List (String × Int)) (List (Option Recipe) × List (String × Int))
  | [], nd, q => Except.ok (nd, q)
  | idx :: rest, nd, q =>
    if idx < prior.length then
      match prior.getD idx none with
      | none => Except.error q
      | some r => lockLoop prior rest (nd.set idx (some r)) (decrIfMem q r.category)
    else
      lockLoop prior rest nd q

/-- `[i for i in range(5) if new_dinners[i] is None]`. -/
def emptyIndices (nd : List (Option Recipe)) : List Nat :=
  (List.range 5).filter (fun i => (nd.getD i none).isNone)

/-- The "Fill remaining slots" loop over the empty indices.  At each index:
collect the categories with positive remaining quota, in dict order; if none,
skip the slot; otherwise consume one oracle value to pick a category, filter
the dinner pool to that category excluding recipes already present in
`new_dinners`; if no candidate remains, skip the slot (quota not decremented);
otherwise consume one oracle value to pick the recipe, place it, and decrement
that category's quota. -/
def fillLoop (dinner_recipes : List Recipe) :
    List Nat → List (Option Recipe) → List (String × Int) → List Nat →
      List (Option Recipe) × List (String × Int) × List Nat
  | [], nd, q, tape => (nd, q, tape)
  | idx :: rest, nd, q, tape =>
    let cats := (q.filter (fun kv => 0 < kv.2)).map (fun kv => kv.1)
    if cats.isEmpty then
      fillLoop dinner_recipes rest nd q tape
    else
      let category := pyChoiceStr cats (tape.headD 0)
      let available := dinner_recipes.filter
        (fun r => r.category == category && !(nd.contains (some r)))
      if available.isEmpty then
        fillLoop dinner_recipes rest nd q tape.tail
      else
        let r := pyChoice available (tape.tail.headD 0)
        fillLoop dinner_recipes rest (nd.set idx (some r)) (decrAll q category)
          tape.tail.tail

/-- `generate_dinners`: validate the quota total against `5 - len(locked)`,
keep the locked meals, fill the remaining (initially-`None`) slots, then
overwrite `selected_dinners` with the new list and return it. -/
def MealPlanner.generate_dinners (p : MealPlanner) (category_limits : List (String × Int))
    (locked_indices : List Nat) (tape : List Nat) : GenResult :=
  let new_dinners : List (Option Recipe) := List.replicate 5 none
  let remaining_slots : Int := 5 - locked_indices.length
  let total_requested : Int := (category_limits.map (fun kv => kv.2)).sum
  if total_requested ≠ remaining_slots then
    GenResult.quotaErr p category_limits remaining_slots total_requested
  else
    match lockLoop p.selected_dinners locked_indices new_dinners category_limits with
    | Except.error q => GenResult.typeErr p q
    | Except.ok (nd, q) =>
      match fillLoop p.dinner_recipes (emptyIndices nd) nd q tape with
      | (nd2, q2, _) => GenResult.ok { p with selected_dinners := nd2 } q2 nd2

/-- One `grocery_list[ingredient][0] += amount; grocery_list[ingredient][1] = unit`
step on a `defaultdict(lambda: [0, ""])`: a missing key is created with the
default `[0, ""]` and then updated (so it is appended at the end in insertion
order), an existing key is updated in place. -/
def updateGrocery (gl : List (String × Int × String)) (ing : String) (amount : Int)
    (unit : String) : List (String × Int × String) :=
  if (gl.lookup ing).isSome then
    gl.map (fun e => if e.1 = ing then (e.1, e.2.1 + amount, unit) else e)
  else
    gl ++ [(ing, 0 + amount, unit)]

/-- The inner loop over one recipe's `ingredients.items()`; the unit is
`recipe['units'].get(ingredient, "")`. -/
def addRecipe (gl : List (String × Int × String)) (r : Recipe) :
    List (String × Int × String) :=
  r.ingredients.foldl
    (fun acc item => updateGrocery acc item.1 item.2 ((r.units.lookup item.1).getD "")) gl

/-- `generate_grocery_list`: accumulate the lunch (when truthy — a recipe dict
is never empty, so `if self.selected_lunch` is just a `None` test) and every
non-`None` dinner, then `sorted(grocery_list.items())` — keys are distinct, so
sorting the pairs compares only the ingredient names. -/
def MealPlanner.generate_grocery_list (p : MealPlanner) : List (String × Int × String) :=
  let gl0 : List (String × Int × String) := []
  let gl1 := match p.selected_lunch with
    | some r => addRecipe gl0 r
    | none => gl0
  let gl2 := p.selected_dinners.foldl
    (fun acc d => match d with
      | some r => addRecipe acc r
      | none => acc) gl1
  gl2.insertionSort (fun a b => pyStrLe a.1 b.1 = true)

/-- A parsed JSON recipe record before any field access: each field may be
absent. -/
structure RawRecipe where
  name : Option String
  category : Option String
  ingredients : Option (List (String × Int))
  units : Option (List (String × String))
  deriving DecidableEq

inductive LoadResult where
  /-- The constructor finished: the two pools, in catalog order. -/
  | ok (lunch_recipes dinner_recipes : List RawRecipe)
  /-- `open` or `json.load` failed: missing file or malformed source. -/
  | loadErr
  /-- `r['name']` raised `KeyError` inside the partition comprehensions. -/
  | keyErr
  deriving DecidableEq

/-- `MealPlanner.__init__` as a loader: `none` models a missing or
syntactically malformed source; otherwise the two list comprehensions read
only `r['name']` — `category` and `ingredients` are not validated at load
time. -/
def loadPlanner (source : Option (List RawRecipe)) : LoadResult :=
  match source with
  | none => LoadResult.loadErr
  | some rs =>
    if rs.all (fun r => r.name.isSome) then
      LoadResult.ok
        (rs.filter (fun r => pyStartsWith (r.name.getD "") "Lunch - "))
        (rs.filter (fun r => !(pyStartsWith (r.name.getD "") "Lunch - ")))
    else LoadResult.keyErr

/-- Plan states reachable through the public operations, starting from
`__init__` on a given catalog. -/
inductive Reachable (recipes : List Recipe) : MealPlanner → Prop where
  | init : Reachable recipes (MealPlanner.init recipes)
  | lunch {p p' : MealPlanner} {c : Option String} {k : Nat} {r : Recipe} :
      Reachable recipes p → p.generate_lunch c k = LunchResult.ok p' r →
      Reachable recipes p'
  | dinners {p p' : MealPlanner} {q q' : List (String × Int)} {locked tape : List Nat}
      {nd : List (Option Recipe)} :
      Reachable recipes p → p.generate_dinners q locked tape = GenResult.ok p' q' nd →
      Reachable recipes p'

/-- The recipes contributing to the grocery list, in iteration order: the
lunch first (when present), then the filled dinner slots by ascending index. -/
def contributingRecipes (p : MealPlanner) : List Recipe :=
  (match p.selected_lunch with
    | some r => [r]
    | none => []) ++ p.selected_dinners.filterMap id

/-- Transcribed from the claim: the total quantity of one ingredient, summed
over a list of contributing recipes. -/
def specTotal (rs : List Recipe) (ing : String) : Int :=
  (rs.map (fun r => (r.ingredients.lookup ing).getD 0)).sum

/-- Transcribed from the claim: the unit recorded by the last contributing
recipe (in iteration order) that lists the ingredient, defaulting to `""` when
that recipe has no unit for it; `none` when no contributor lists it. -/
def specUnit (rs : List Recipe) (ing : String) : Option String :=
  ((rs.filter (fun r => (r.ingredients.lookup ing).isSome)).getLast?).map
    (fun r => (r.units.lookup ing).getD "")

/-- The category held by slot `i`, when the slot exists and is filled. -/
def slotCat (nd : List (Option Recipe)) (i : Nat) : Option String :=
  match nd[i]? with
  | some (some r) => some r.category
  | _ => none

/-- How many locked indices keep a recipe of category `c`. -/
def lockedHits (prior : List (Option Recipe)) (locked : List Nat) (c : String) : Nat :=
  locked.countP (fun idx => slotCat prior idx == some c)

/-- How many unlocked (hence newly filled) slots hold a recipe of category `c`. -/
def newHits (nd : List (Option Recipe)) (locked : List Nat) (c : String) : Nat :=
  (List.range 5).countP (fun i => !(locked.contains i) && (slotCat nd i == some c))

/-! ### Sample data for concrete witnesses and counterexamples -/

def sampleRecipe (n c : String) : Recipe := ⟨n, c, [], []⟩

/-- Five distinct dinner recipes: four of category `"A"`, one of `"B"`. -/
def catalogAB : List Recipe :=
  [sampleRecipe "a1" "A", sampleRecipe "a2" "A", sampleRecipe "a3" "A",
   sampleRecipe "a4" "A", sampleRecipe "b1" "B"]

/-- Five distinct dinner recipes, all of category `"A"`. -/
def catalogA5 : List Recipe :=
  [sampleRecipe "r1" "A", sampleRecipe "r2" "A", sampleRecipe "r3" "A",
   sampleRecipe "r4" "A", sampleRecipe "r5" "A"]

def ndA5 : List (Option Recipe) := catalogA5.map some

def lunchVeg : Recipe := ⟨"Lunch - x", "Veg", [], []⟩

/-- A planner whose 5 dinner slots are all filled (as after a successful
generation). -/
def lockedPlanner : MealPlanner :=
  { lunch_recipes := [], dinner_recipes := catalogA5, selected_lunch := none,
    selected_dinners := [some (sampleRecipe "r1" "A"), some (sampleRecipe "r2" "A"),
      some (sampleRecipe "r3" "A"), some (sampleRecipe "r4" "A"),
      some (sampleRecipe "r5" "A")] }

def eggLunch : Recipe := ⟨"Lunch - e", "Veg", [("eggs", 2)], [("eggs", "pcs")]⟩

def eggDinner : Recipe := ⟨"d", "Meat", [("eggs", 3), ("ham", 1)], [("eggs", "pcs")]⟩

def eggPlanner : MealPlanner :=
  { lunch_recipes := [eggLunch], dinner_recipes := [eggDinner],
    selected_lunch := some eggLunch,
    selected_dinners := [some eggDinner, none, none, none, none] }

/-- A lunch recipe and a dinner recipe sharing the category `"Veg"`. -/
def overlapPlanner : MealPlanner :=
  MealPlanner.init [⟨"Lunch - Salad", "Veg", [], []⟩, ⟨"Pasta", "Veg", [], []⟩]

/-- A lunch recipe and a dinner recipe with different categories. -/
def disjointPlanner : MealPlanner :=
  MealPlanner.init [⟨"Lunch - Salad", "Veg", [], []⟩, ⟨"Pasta", "Meat", [], []⟩]

/-! ### The code-point order agrees with Lean's `String` order -/

theorem pyCharListLe_iff_not_lex (u v : List Char) :
    pyCharListLe u v = true ↔ ¬ List.Lex (· < ·) v u := by
  induction u generalizing v with
  | nil =>
    refine iff_of_true rfl ?_
    intro h
    cases h
  | cons a as ih =>
    cases v with
    | nil =>
      refine iff_of_false (by simp [pyCharListLe]) ?_
      exact fun h => h List.Lex.nil
    | cons b bs =>
      by_cases hab : a < b
      · refine iff_of_true (by simp [pyCharListLe, hab]) ?_
        intro h
        cases h with
        | cons h2 => exact absurd hab (lt_irrefl a)
        | rel h2 => exact absurd h2 (lt_asymm hab)
      · by_cases hba : b < a
        · refine iff_of_false (by simp [pyCharListLe, hab, hba]) ?_
          exact fun h => h (List.Lex.rel hba)
        · have heq : a = b := le_antisymm (not_lt.mp hba) (not_lt.mp hab)
          subst heq
          have hstep : pyCharListLe (a :: as) (a :: bs) = pyCharListLe as bs := by
            simp [pyCharListLe, hab]
          rw [hstep, ih bs]
          constructor
          · intro h hcons
            cases hcons with
            | cons h2 => exact h h2
            | rel h2 => exact absurd h2 (lt_irrefl a)
          · intro h htl
            exact h (List.Lex.cons htl)

theorem pyStrLe_iff_le (a b : String) : pyStrLe a b = true ↔ a ≤ b := by
  have h := pyCharListLe_iff_not_lex a.data b.data
  rw [show (a ≤ b) = ¬ b < a from rfl, String.lt_iff_toList_lt]
  exact h

theorem pyStrLe_total (a b : String) : pyStrLe a b = true ∨ pyStrLe b a = true := by
  rcases le_total a b with h | h
  · exact Or.inl ((pyStrLe_iff_le a b).mpr h)
  · exact Or.inr ((pyStrLe_iff_le b a).mpr h)

theorem pyStrLe_trans {a b c : String} (h1 : pyStrLe a b = true) (h2 : pyStrLe b c = true) :
    pyStrLe a c = true :=
  (pyStrLe_iff_le a c).mpr (le_trans ((pyStrLe_iff_le a b).mp h1) ((pyStrLe_iff_le b c).mp h2))

instance : IsTotal String (fun a b => pyStrLe a b = true) := ⟨pyStrLe_total⟩

instance : IsTrans String (fun a b => pyStrLe a b = true) := ⟨fun _ _ _ => pyStrLe_trans⟩

instance : IsTotal (String × Int × String) (fun a b => pyStrLe a.1 b.1 = true) :=
  ⟨fun a b => pyStrLe_total a.1 b.1⟩

instance : IsTrans (String × Int × String) (fun a b => pyStrLe a.1 b.1 = true) :=
  ⟨fun _ _ _ => pyStrLe_trans⟩

/-! ### Unfolding lemma for `generate_dinners` -/

theorem generate_dinners_eq (p : MealPlanner) (q : List (String × Int))
    (locked tape : List Nat) :
    p.generate_dinners q locked tape =
      if (q.map (fun kv => kv.2)).sum ≠ (5 : Int) - locked.length then
        GenResult.quotaErr p q ((5 : Int) - locked.length) ((q.map (fun kv => kv.2)).sum)
      else
        match lockLoop p.selected_dinners locked (List.replicate 5 none) q with
        | Except.error q1 => GenResult.typeErr p q1
        | Except.ok (nd, q1) =>
          match fillLoop p.dinner_recipes (emptyIndices nd) nd q1 tape with
          | (nd2, q2, _) => GenResult.ok { p with selected_dinners := nd2 } q2 nd2 := rfl

/-! ### C2 -/

/-- C2: `generate_dinners` fails with the quota-mismatch error, carrying
expected total `5 - len(locked)` and actual total `sum(quota.values())`,
exactly when the quota total differs from `5 - len(locked)`; the failure value
carries the planner and the quota dict exactly as passed, i.e. no plan state
(and no quota entry) has been mutated when the exception escapes. -/
theorem C2_quota_mismatch (p : MealPlanner) (q : List (String × Int))
    (locked tape : List Nat) :
    (p.generate_dinners q locked tape =
        GenResult.quotaErr p q ((5 : Int) - locked.length) ((q.map (fun kv => kv.2)).sum)
      ↔ (q.map (fun kv => kv.2)).sum ≠ (5 : Int) - locked.length) ∧
    (∀ p0 q0 e a, p.generate_dinners q locked tape = GenResult.quotaErr p0 q0 e a →
      p0 = p ∧ q0 = q ∧ e = (5 : Int) - locked.length ∧ a = (q.map (fun kv => kv.2)).sum) := by
  rw [generate_dinners_eq]
  by_cases hne : (q.map (fun kv => kv.2)).sum ≠ (5 : Int) - locked.length
  · rw [if_pos hne]
    refine ⟨iff_of_true rfl hne, ?_⟩
    intro p0 q0 e a h
    injection h with h1 h2 h3 h4
    exact ⟨h1.symm, h2.symm, h3.symm, h4.symm⟩
  · rw [if_neg hne]
    cases hl : lockLoop p.selected_dinners locked (List.replicate 5 none) q with
    | error q1 =>
      exact ⟨iff_of_false (by simp) hne, by intro p0 q0 e a h; cases h⟩
    | ok pr =>
      obtain ⟨nd, q1⟩ := pr
      cases hf : fillLoop p.dinner_recipes (emptyIndices nd) nd q1 tape with
      | mk nd2 rest =>
        obtain ⟨q2, t2⟩ := rest
        exact ⟨iff_of_false (by simp) hne, by intro p0 q0 e a h; cases h⟩

/-! ### C8 -/

/-- C8 counterexample: the category string `""` matches no recipe in the lunch
pool, yet `generate_lunch` succeeds and overwrites `selected_lunch` instead of
raising the no-match error — Python's `if category:` treats `""` as absent. -/
theorem C8_counterexample :
    ((MealPlanner.init [lunchVeg]).lunch_recipes.all (fun r => r.category != "")) = true ∧
    (MealPlanner.init [lunchVeg]).generate_lunch (some "") 0 =
      LunchResult.ok { MealPlanner.init [lunchVeg] with selected_lunch := some lunchVeg }
        lunchVeg :=
  ⟨rfl, rfl⟩

/-- C8 (amended): for every provided non-empty category string that matches no
recipe in the lunch pool, `generate_lunch` raises the no-match error and the
planner — in particular `selected_lunch` — is unchanged (the carried planner
is the input planner itself). -/
theorem C8_no_match (p : MealPlanner) (c : String) (k : Nat) (hc : c ≠ "")
    (hno : ∀ r ∈ p.lunch_recipes, r.category ≠ c) :
    p.generate_lunch (some c) k = LunchResult.noMatch p := by
  have hf : p.lunch_recipes.filter (fun r => r.category == c) = [] := by
    rw [List.filter_eq_nil_iff]
    intro r hr
    simpa using hno r hr
  simp [MealPlanner.generate_lunch, truthyOptStr, hc, hf]

/-- Witness for `C8_no_match` at a concrete input. -/
theorem C8_no_match_witness :
    (MealPlanner.init [lunchVeg]).generate_lunch (some "Nope") 0 =
      LunchResult.noMatch (MealPlanner.init [lunchVeg]) :=
  C8_no_match (MealPlanner.init [lunchVeg]) "Nope" 0 (by decide) (by decide)

/-! ### C9 -/

/-- C9 counterexample: a source whose single recipe record has a `name` but
neither `category` nor `ingredients` loads successfully — the constructor
reads only `r['name']`, so the claimed load failure on a record missing
`category` or `ingredients` does not occur. -/
theorem C9_counterexample :
    (RawRecipe.mk (some "X") none none none).category = none ∧
    (RawRecipe.mk (some "X") none none none).ingredients = none ∧
    loadPlanner (some [RawRecipe.mk (some "X") none none none]) =
      LoadResult.ok [] [RawRecipe.mk (some "X") none none none] :=
  ⟨rfl, rfl, rfl⟩

/-- C9 (amended): loading fails exactly when the source is missing or
malformed (`loadErr`) or some recipe record lacks `name` (`keyErr`); a record
lacking only `category` or `ingredients` never makes loading fail. -/
theorem C9_load_failures (source : Option (List RawRecipe)) :
    (loadPlanner source = LoadResult.loadErr ↔ source = none) ∧
    (loadPlanner source = LoadResult.keyErr ↔
      ∃ rs, source = some rs ∧ ∃ r ∈ rs, r.name = none) := by
  cases source with
  | none =>
    refine ⟨iff_of_true rfl rfl, iff_of_false (by simp [loadPlanner]) ?_⟩
    rintro ⟨rs, heq, -⟩
    cases heq
  | some rs =>
    constructor
    · refine iff_of_false ?_ (by simp)
      by_cases hall : rs.all (fun r => r.name.isSome) <;> simp [loadPlanner, hall]
    · by_cases hall : rs.all (fun r => r.name.isSome)
      · refine iff_of_false (by simp [loadPlanner, hall]) ?_
        rintro ⟨rs2, heq, r, hr, hname⟩
        injection heq with heq
        subst heq
        simp only [List.all_eq_true] at hall
        have := hall r hr
        rw [hname] at this
        cases this
      · refine iff_of_true (by simp [loadPlanner, hall]) ?_
        refine ⟨rs, rfl, ?_⟩
        simp only [List.all_eq_true, not_forall] at hall
        obtain ⟨r, hr, hname⟩ := hall
        refine ⟨r, hr, ?_⟩
        cases hrn : r.name with
        | none => rfl
        | some s => rw [hrn] at hname; simp at hname

/-! ### C7 -/

theorem get_categories_def (p : MealPlanner) (mt : String) :
    p.get_categories mt =
      (((if mt = "lunch" then p.lunch_recipes else p.dinner_recipes).map
        (fun r => r.category)).dedup).insertionSort (fun a b => pyStrLe a b = true) := rfl

theorem mem_get_categories (p : MealPlanner) (mt : String) (c : String) :
    c ∈ p.get_categories mt ↔
      ∃ r ∈ (if mt = "lunch" then p.lunch_recipes else p.dinner_recipes),
        r.category = c := by
  rw [get_categories_def, (List.perm_insertionSort _ _).mem_iff, List.mem_dedup,
    List.mem_map]

/-- C7 (amended): for every planner and meal type, `get_categories` returns a
lexicographically sorted, duplicate-free list; the lunch and dinner lists are
disjoint provided no category string is carried by both a lunch-pool and a
dinner-pool recipe.  (Each recipe being classified into exactly one pool does
not by itself ensure disjointness — see the counterexample.) -/
theorem C7_categories (p : MealPlanner) (mt : String) :
    (p.get_categories mt).Pairwise (fun a b => a ≤ b) ∧
    (p.get_categories mt).Nodup ∧
    ((∀ r ∈ p.lunch_recipes, ∀ r2 ∈ p.dinner_recipes, r.category ≠ r2.category) →
      ∀ c ∈ p.get_categories "lunch", c ∉ p.get_categories "dinner") := by
  refine ⟨?_, ?_, ?_⟩
  · rw [get_categories_def]
    exact (List.sorted_insertionSort (fun a b => pyStrLe a b = true) _).imp
      (fun hab => (pyStrLe_iff_le _ _).mp hab)
  · rw [get_categories_def]
    exact ((List.perm_insertionSort _ _).nodup_iff).mpr (List.nodup_dedup _)
  · intro hdisj c hcl hcd
    rw [mem_get_categories] at hcl hcd
    rw [if_pos rfl] at hcl
    rw [if_neg (by decide)] at hcd
    obtain ⟨r, hr, hrc⟩ := hcl
    obtain ⟨r2, hr2, hrc2⟩ := hcd
    exact hdisj r hr r2 hr2 (hrc.trans hrc2.symm)

/-- C7 counterexample: every recipe of this catalog is classified into exactly
one pool, yet `categories('lunch')` and `categories('dinner')` share the name
`"Veg"` — the pools are split by name marker, so one category can span both. -/
theorem C7_counterexample :
    overlapPlanner.lunch_recipes = [Recipe.mk "Lunch - Salad" "Veg" [] []] ∧
    overlapPlanner.dinner_recipes = [Recipe.mk "Pasta" "Veg" [] []] ∧
    overlapPlanner.get_categories "lunch" = ["Veg"] ∧
    overlapPlanner.get_categories "dinner" = ["Veg"] :=
  ⟨rfl, rfl, rfl, rfl⟩

/-! ### Association-list helpers -/

theorem map_ite_cons {γ : Type} (a : String) (b : γ) (t : List (String × γ))
    (k : String) (f : γ → γ) :
    ((a, b) :: t).map (fun e => if e.1 = k then (e.1, f e.2) else e) =
      (a, if a = k then f b else b) :: t.map (fun e => if e.1 = k then (e.1, f e.2) else e) := by
  by_cases h : a = k <;> simp [h]

theorem lookup_map_ite {γ : Type} (l : List (String × γ)) (k k' : String) (f : γ → γ) :
    (l.map (fun e => if e.1 = k then (e.1, f e.2) else e)).lookup k' =
      (l.lookup k').map (fun v => if k' = k then f v else v) := by
  induction l with
  | nil => rfl
  | cons e t ih =>
    obtain ⟨a, b⟩ := e
    rw [map_ite_cons, List.lookup_cons, List.lookup_cons]
    by_cases hk : k' = a
    · have hbeq : (k' == a) = true := by simpa using hk
      simp only [hbeq, Option.map_some']
      by_cases ha : a = k
      · rw [if_pos ha, if_pos (hk.trans ha)]
      · rw [if_neg ha, if_neg (by rw [hk]; exact ha)]
    · have hbeq : (k' == a) = false := by simpa using hk
      simp only [hbeq]
      exact ih

theorem map_fst_map_ite {γ : Type} (l : List (String × γ)) (k : String) (f : γ → γ) :
    (l.map (fun e => if e.1 = k then (e.1, f e.2) else e)).map Prod.fst = l.map Prod.fst := by
  induction l with
  | nil => rfl
  | cons e t ih =>
    obtain ⟨a, b⟩ := e
    by_cases ha : a = k <;> simp [ha, ih]

theorem decrAll_lookup (q : List (String × Int)) (c c' : String) :
    (decrAll q c).lookup c' = (q.lookup c').map (fun v => if c' = c then v - 1 else v) :=
  lookup_map_ite q c c' (fun v => v - 1)

theorem decrAll_keys (q : List (String × Int)) (c : String) :
    (decrAll q c).map Prod.fst = q.map Prod.fst :=
  map_fst_map_ite q c (fun v => v - 1)

theorem decrIfMem_keys (q : List (String × Int)) (c : String) :
    (decrIfMem q c).map Prod.fst = q.map Prod.fst := by
  unfold decrIfMem
  split
  · exact decrAll_keys q c
  · rfl

theorem lookup_eq_some_of_mem {γ : Type} :
    ∀ {l : List (String × γ)}, (l.map Prod.fst).Nodup →
      ∀ {k : String} {v : γ}, (k, v) ∈ l → l.lookup k = some v := by
  intro l
  induction l with
  | nil => intro _ k v h; cases h
  | cons e t ih =>
    intro hnd k v h
    obtain ⟨a, b⟩ := e
    rw [List.map_cons, List.nodup_cons] at hnd
    rcases List.mem_cons.mp h with heq | hmem
    · injection heq with h1 h2
      subst h1; subst h2
      simp [List.lookup_cons]
    · have hk : k ≠ a := by
        rintro rfl
        exact hnd.1 (List.mem_map.mpr ⟨(k, v), hmem, rfl⟩)
      have hbeq : (k == a) = false := by simpa using hk
      rw [List.lookup_cons]
      simp only [hbeq]
      exact ih hnd.2 hmem

theorem mem_of_lookup_eq_some {γ : Type} :
    ∀ {l : List (String × γ)} {k : String} {v : γ}, l.lookup k = some v → (k, v) ∈ l := by
  intro l
  induction l with
  | nil => intro k v h; cases h
  | cons e t ih =>
    intro k v h
    obtain ⟨a, b⟩ := e
    rw [List.lookup_cons] at h
    by_cases hk : k = a
    · have hbeq : (k == a) = true := by simpa using hk
      simp only [hbeq] at h
      injection h with h
      subst h
      exact List.mem_cons.mpr (Or.inl (by rw [hk]))
    · have hbeq : (k == a) = false := by simpa using hk
      simp only [hbeq] at h
      exact List.mem_cons.mpr (Or.inr (ih h))

theorem lookup_eq_of_perm {γ : Type} {l l' : List (String × γ)}
    (hnd : (l.map Prod.fst).Nodup) (hp : l.Perm l') (k : String) :
    l.lookup k = l'.lookup k := by
  cases h : l.lookup k with
  | none =>
    rw [List.lookup_eq_none_iff] at h
    symm
    rw [List.lookup_eq_none_iff]
    intro pq hpq
    exact h pq (hp.symm.subset hpq)
  | some v =>
    have hm : (k, v) ∈ l' := hp.subset (mem_of_lookup_eq_some h)
    have hnd' : (l'.map Prod.fst).Nodup := ((hp.map Prod.fst).nodup_iff).mp hnd
    exact (lookup_eq_some_of_mem hnd' hm).symm

theorem eq_of_mem_nodup_keys {γ : Type} {l : List (String × γ)}
    (hnd : (l.map Prod.fst).Nodup) {kv kv' : String × γ}
    (h1 : kv ∈ l) (h2 : kv' ∈ l) (hk : kv.1 = kv'.1) : kv = kv' := by
  have e1 : l.lookup kv.1 = some kv.2 := lookup_eq_some_of_mem hnd h1
  have e2 : l.lookup kv'.1 = some kv'.2 := lookup_eq_some_of_mem hnd h2
  rw [hk, e2] at e1
  injection e1 with e1
  exact Prod.ext hk (by rw [e1])

/-! ### Integer list sums -/

theorem int_sum_nonpos : ∀ {l : List Int}, (∀ x ∈ l, x ≤ 0) → l.sum ≤ 0 := by
  intro l
  induction l with
  | nil => intro _; simp
  | cons x t ih =>
    intro h
    rw [List.sum_cons]
    have hx := h x (List.mem_cons_self x t)
    have ht := ih (fun y hy => h y (List.mem_cons_of_mem x hy))
    omega

theorem int_sum_nonneg : ∀ {l : List Int}, (∀ x ∈ l, 0 ≤ x) → 0 ≤ l.sum := by
  intro l
  induction l with
  | nil => intro _; simp
  | cons x t ih =>
    intro h
    rw [List.sum_cons]
    have hx := h x (List.mem_cons_self x t)
    have ht := ih (fun y hy => h y (List.mem_cons_of_mem x hy))
    omega

theorem int_all_zero_of_sum_zero : ∀ {l : List Int}, (∀ x ∈ l, 0 ≤ x) → l.sum = 0 →
    ∀ x ∈ l, x = 0 := by
  intro l
  induction l with
  | nil => intro _ _ x hx; cases hx
  | cons y t ih =>
    intro h hsum x hx
    rw [List.sum_cons] at hsum
    have hy := h y (List.mem_cons_self y t)
    have hts : 0 ≤ t.sum := int_sum_nonneg (fun z hz => h z (List.mem_cons_of_mem y hz))
    rcases List.mem_cons.mp hx with rfl | hxt
    · omega
    · exact ih (fun z hz => h z (List.mem_cons_of_mem y hz)) (by omega) x hxt

theorem int_exists_pos_of_sum_pos {l : List Int} (h : 0 < l.sum) : ∃ x ∈ l, 0 < x := by
  by_contra hall
  push_neg at hall
  have := int_sum_nonpos hall
  omega

/-! ### Option-list helpers -/

theorem mem_filterMap_id {α : Type} {l : List (Option α)} {a : α} :
    a ∈ l.filterMap id ↔ some a ∈ l := by
  rw [List.mem_filterMap]
  constructor
  · rintro ⟨x, hx, hxa⟩
    rwa [show x = some a from hxa] at hx
  · intro h
    exact ⟨some a, h, rfl⟩

theorem nodup_filterMap_set {α : Type} :
    ∀ (nd : List (Option α)) (idx : Nat) (r : α),
      (nd.filterMap id).Nodup → some r ∉ nd →
      ((nd.set idx (some r)).filterMap id).Nodup := by
  intro nd
  induction nd with
  | nil => intro idx r _ _; simp
  | cons o t ih =>
    intro idx r h hmem
    rw [List.mem_cons, not_or] at hmem
    cases idx with
    | zero =>
      rw [List.set_cons_zero, List.filterMap_cons_some (f := id) (b := r) rfl,
        List.nodup_cons]
      refine ⟨fun hc => hmem.2 (mem_filterMap_id.mp hc), ?_⟩
      cases o with
      | none => rwa [List.filterMap_cons_none (f := id) rfl] at h
      | some a =>
        rw [List.filterMap_cons_some (f := id) (b := a) rfl, List.nodup_cons] at h
        exact h.2
    | succ n =>
      rw [List.set_cons_succ]
      cases o with
      | none =>
        rw [List.filterMap_cons_none (f := id) rfl] at h ⊢
        exact ih n r h hmem.2
      | some a =>
        rw [List.filterMap_cons_some (f := id) (b := a) rfl, List.nodup_cons] at h ⊢
        refine ⟨?_, ih n r h.2 hmem.2⟩
        intro hc
        rcases List.mem_or_eq_of_mem_set (mem_filterMap_id.mp hc) with h2 | h2
        · exact h.1 (mem_filterMap_id.mpr h2)
        · injection h2 with h2
          exact hmem.1 (by rw [h2])

theorem pd_of_nodup_filterMap {α : Type} {nd : List (Option α)}
    (h : (nd.filterMap id).Nodup) {i j : Nat} {ri rj : α} (hij : i ≠ j)
    (hi : nd[i]? = some (some ri)) (hj : nd[j]? = some (some rj)) : ri ≠ rj := by
  rw [List.Nodup, List.pairwise_filterMap, List.pairwise_iff_getElem] at h
  obtain ⟨hi', hieq⟩ := List.getElem?_eq_some_iff.mp hi
  obtain ⟨hj', hjeq⟩ := List.getElem?_eq_some_iff.mp hj
  rcases Nat.lt_or_ge i j with hlt | hge
  · exact h i j hi' hj' hlt ri (by simp [hieq]) rj (by simp [hjeq])
  · have hlt : j < i := lt_of_le_of_ne hge (Ne.symm hij)
    exact fun he => h j i hj' hi' hlt rj (by simp [hjeq]) ri (by simp [hieq]) he.symm

theorem nodup_filterMap_of_pd {α : Type} {nd : List (Option α)}
    (h : ∀ (i j : Nat) (ri rj : α), i ≠ j → nd[i]? = some (some ri) →
      nd[j]? = some (some rj) → ri ≠ rj) :
    (nd.filterMap id).Nodup := by
  rw [List.Nodup, List.pairwise_filterMap, List.pairwise_iff_getElem]
  intro i j hi hj hij b hb b' hb'
  refine h i j b b' (Nat.ne_of_lt hij) ?_ ?_
  · rw [List.getElem?_eq_getElem hi]
    simpa using hb
  · rw [List.getElem?_eq_getElem hj]
    simpa using hb'

theorem nodup_filterMap_of_dominated {α : Type} {prior nd : List (Option α)}
    (hdom : ∀ (i : Nat) (oi : Option α), nd[i]? = some oi → oi = none ∨ prior[i]? = some oi)
    (hp : (prior.filterMap id).Nodup) : (nd.filterMap id).Nodup := by
  apply nodup_filterMap_of_pd
  intro i j ri rj hij hi hj
  rcases hdom i _ hi with h1 | h1
  · exact absurd h1 (by simp)
  rcases hdom j _ hj with h2 | h2
  · exact absurd h2 (by simp)
  exact pd_of_nodup_filterMap hp hij h1 h2

/-! ### `lockLoop` lemmas -/

theorem lockLoop_nil (prior : List (Option Recipe)) (nd : List (Option Recipe))
    (q : List (String × Int)) : lockLoop prior [] nd q = Except.ok (nd, q) := rfl

theorem lockLoop_cons (prior : List (Option Recipe)) (idx : Nat) (rest : List Nat)
    (nd : List (Option Recipe)) (q : List (String × Int)) :
    lockLoop prior (idx :: rest) nd q =
      if idx < prior.length then
        match prior.getD idx none with
        | none => Except.error q
        | some r => lockLoop prior rest (nd.set idx (some r)) (decrIfMem q r.category)
      else lockLoop prior rest nd q := rfl

theorem slotCat_eq {prior : List (Option Recipe)} {idx : Nat} {r : Recipe}
    (h : prior[idx]? = some (some r)) : slotCat prior idx = some r.category := by
  simp [slotCat, h]

theorem slotCat_of_none {nd : List (Option Recipe)} {i : Nat}
    (h : nd[i]? = some none) : slotCat nd i = none := by
  simp [slotCat, h]

theorem lockLoop_ok_length (prior : List (Option Recipe)) :
    ∀ (locked : List Nat) (nd : List (Option Recipe)) (q : List (String × Int))
      {nd' : List (Option Recipe)} {q' : List (String × Int)},
      lockLoop prior locked nd q = Except.ok (nd', q') → nd'.length = nd.length := by
  intro locked
  induction locked with
  | nil =>
    intro nd q nd' q' h
    rw [lockLoop_nil] at h
    cases h
    rfl
  | cons idx rest ih =>
    intro nd q nd' q' h
    rw [lockLoop_cons] at h
    by_cases hlt : idx < prior.length
    · rw [if_pos hlt] at h
      cases hpr : prior.getD idx none with
      | none =>
        simp only [hpr] at h
        cases h
      | some r =>
        simp only [hpr] at h
        rw [ih _ _ h, List.length_set]
    · rw [if_neg hlt] at h
      exact ih _ _ h

theorem lockLoop_ok_keys (prior : List (Option Recipe)) :
    ∀ (locked : List Nat) (nd : List (Option Recipe)) (q : List (String × Int))
      {nd' : List (Option Recipe)} {q' : List (String × Int)},
      lockLoop prior locked nd q = Except.ok (nd', q') →
      q'.map Prod.fst = q.map Prod.fst := by
  intro locked
  induction locked with
  | nil =>
    intro nd q nd' q' h
    rw [lockLoop_nil] at h
    cases h
    rfl
  | cons idx rest ih =>
    intro nd q nd' q' h
    rw [lockLoop_cons] at h
    by_cases hlt : idx < prior.length
    · rw [if_pos hlt] at h
      cases hpr : prior.getD idx none with
      | none =>
        simp only [hpr] at h
        cases h
      | some r =>
        simp only [hpr] at h
        rw [ih _ _ h, decrIfMem_keys]
    · rw [if_neg hlt] at h
      exact ih _ _ h

theorem lockLoop_ok_dom (prior : List (Option Recipe)) :
    ∀ (locked : List Nat) (nd : List (Option Recipe)) (q : List (String × Int))
      {nd' : List (Option Recipe)} {q' : List (String × Int)},
      lockLoop prior locked nd q = Except.ok (nd', q') →
      (∀ (i : Nat) (oi : Option Recipe), nd[i]? = some oi →
        oi = none ∨ prior[i]? = some oi) →
      ∀ (i : Nat) (oi : Option Recipe), nd'[i]? = some oi →
        oi = none ∨ prior[i]? = some oi := by
  intro locked
  induction locked with
  | nil =>
    intro nd q nd' q' h hinv
    rw [lockLoop_nil] at h
    cases h
    exact hinv
  | cons idx rest ih =>
    intro nd q nd' q' h hinv
    rw [lockLoop_cons] at h
    by_cases hlt : idx < prior.length
    · rw [if_pos hlt] at h
      cases hpr : prior.getD idx none with
      | none =>
        simp only [hpr] at h
        cases h
      | some r =>
        simp only [hpr] at h
        refine ih _ _ h ?_
        intro i oi hoi
        rw [List.getElem?_set] at hoi
        by_cases hi : idx = i
        · rw [if_pos hi] at hoi
          by_cases hil : idx < nd.length
          · rw [if_pos hil] at hoi
            injection hoi with hoi
            right
            rw [← hi, List.getElem?_eq_getElem hlt, ← hoi]
            have := List.getD_eq_getElem?_getD prior idx none
            rw [List.getElem?_eq_getElem hlt] at this
            rw [hpr] at this
            simpa using this.symm
          · rw [if_neg hil] at hoi
            cases hoi
        · rw [if_neg hi] at hoi
          exact hinv i oi hoi
    · rw [if_neg hlt] at h
      exact ih _ _ h hinv

theorem lockLoop_keep (prior : List (Option Recipe)) :
    ∀ (locked : List Nat) (nd : List (Option Recipe)) (q : List (String × Int)),
      (∀ idx ∈ locked, ∃ r, prior[idx]? = some (some r)) →
      (∀ idx ∈ locked, idx < nd.length) →
      ∃ nd' q', lockLoop prior locked nd q = Except.ok (nd', q') ∧
        (∀ idx ∈ locked, nd'[idx]? = prior[idx]?) ∧
        (∀ i : Nat, i ∉ locked → nd'[i]? = nd[i]?) ∧
        (∀ c : String, q'.lookup c =
          (q.lookup c).map (fun v => v - (lockedHits prior locked c : Int))) := by
  intro locked
  induction locked with
  | nil =>
    intro nd q _ _
    refine ⟨nd, q, lockLoop_nil prior nd q, ?_, ?_, ?_⟩
    · intro idx hidx; cases hidx
    · intro i _; rfl
    · intro c
      cases q.lookup c <;> simp [lockedHits]
  | cons idx rest ih =>
    intro nd q hvalid hlen
    obtain ⟨r, hpr⟩ := hvalid idx (List.mem_cons_self idx rest)
    have hlt : idx < prior.length := by
      rcases List.getElem?_eq_some_iff.mp hpr with ⟨h1, _⟩
      exact h1
    have hgetD : prior.getD idx none = some r := by
      rw [List.getD_eq_getElem?_getD, hpr]
      rfl
    have hndlt : idx < nd.length := hlen idx (List.mem_cons_self idx rest)
    obtain ⟨nd', q', heq, hkeep, hother, hquota⟩ :=
      ih (nd.set idx (some r)) (decrIfMem q r.category)
        (fun i hi => hvalid i (List.mem_cons_of_mem idx hi))
        (fun i hi => by rw [List.length_set]; exact hlen i (List.mem_cons_of_mem idx hi))
    refine ⟨nd', q', ?_, ?_, ?_, ?_⟩
    · rw [lockLoop_cons, if_pos hlt, hgetD]
      exact heq
    · intro i hi
      rcases List.mem_cons.mp hi with rfl | hirest
      · by_cases hmem : i ∈ rest
        · exact hkeep i hmem
        · rw [hother i hmem, List.getElem?_set, if_pos rfl, if_pos hndlt, hpr]
      · exact hkeep i hirest
    · intro i hi
      rw [List.mem_cons, not_or] at hi
      rw [hother i hi.2, List.getElem?_set, if_neg (fun he => hi.1 he.symm)]
    · intro c
      rw [hquota c]
      have hslot : slotCat prior idx = some r.category := slotCat_eq hpr
      by_cases hc : r.category = c
      · subst hc
        have hcount : lockedHits prior (idx :: rest) r.category =
            lockedHits prior rest r.category + 1 := by
          rw [lockedHits, List.countP_cons, lockedHits, hslot]
          simp
        rw [hcount]
        by_cases hin : (q.lookup r.category).isSome
        · rw [decrIfMem, if_pos hin, decrAll_lookup]
          cases hq : q.lookup r.category with
          | none => rw [hq] at hin; cases hin
          | some v =>
            rw [Option.map_some', Option.map_some', Option.map_some']
            congr 1
            simp only [if_pos rfl]
            push_cast
            omega
        · rw [decrIfMem, if_neg hin]
          cases hq : q.lookup r.category with
          | none => rfl
          | some v => rw [hq] at hin; simp at hin
      · have hcount : lockedHits prior (idx :: rest) c = lockedHits prior rest c := by
          rw [lockedHits, List.countP_cons, lockedHits, hslot]
          simp [hc]
        rw [hcount]
        by_cases hin : (q.lookup r.category).isSome
        · rw [decrIfMem, if_pos hin, decrAll_lookup]
          cases hq : q.lookup c with
          | none => rfl
          | some v =>
            rw [Option.map_some', Option.map_some', Option.map_some']
            congr 1
            have hcn : ¬ c = r.category := fun he => hc he.symm
            rw [if_neg hcn]
        · rw [decrIfMem, if_neg hin]

/-! ### `fillLoop` lemmas -/

theorem fillLoop_nil (d : List Recipe) (nd : List (Option Recipe))
    (q : List (String × Int)) (tape : List Nat) :
    fillLoop d [] nd q tape = (nd, q, tape) := rfl

theorem fillLoop_cons (d : List Recipe) (idx : Nat) (rest : List Nat)
    (nd : List (Option Recipe)) (q : List (String × Int)) (tape : List Nat) :
    fillLoop d (idx :: rest) nd q tape =
      if ((q.filter (fun kv => 0 < kv.2)).map (fun kv => kv.1)).isEmpty then
        fillLoop d rest nd q tape
      else
        if (d.filter (fun r =>
              r.category == pyChoiceStr ((q.filter (fun kv => 0 < kv.2)).map
                  (fun kv => kv.1)) (tape.headD 0) &&
              !(nd.contains (some r)))).isEmpty then
          fillLoop d rest nd q tape.tail
        else
          fillLoop d rest
            (nd.set idx (some (pyChoice (d.filter (fun r =>
              r.category == pyChoiceStr ((q.filter (fun kv => 0 < kv.2)).map
                  (fun kv => kv.1)) (tape.headD 0) &&
              !(nd.contains (some r)))) (tape.tail.headD 0))))
            (decrAll q (pyChoiceStr ((q.filter (fun kv => 0 < kv.2)).map
                (fun kv => kv.1)) (tape.headD 0)))
            tape.tail.tail := rfl

theorem pyChoice_mem {xs : List Recipe} (h : xs ≠ []) (k : Nat) : pyChoice xs k ∈ xs := by
  unfold pyChoice
  have hlen : 0 < xs.length := List.length_pos.mpr h
  have hmod : k % xs.length < xs.length := Nat.mod_lt _ hlen
  rw [List.getD_eq_getElem?_getD, List.getElem?_eq_getElem hmod]
  exact List.getElem_mem hmod

theorem pyChoiceStr_mem {xs : List String} (h : xs ≠ []) (k : Nat) :
    pyChoiceStr xs k ∈ xs := by
  unfold pyChoiceStr
  have hlen : 0 < xs.length := List.length_pos.mpr h
  have hmod : k % xs.length < xs.length := Nat.mod_lt _ hlen
  rw [List.getD_eq_getElem?_getD, List.getElem?_eq_getElem hmod]
  exact List.getElem_mem hmod

theorem fillLoop_length (d : List Recipe) :
    ∀ (idxs : List Nat) (nd : List (Option Recipe)) (q : List (String × Int))
      (tape : List Nat), (fillLoop d idxs nd q tape).1.length = nd.length := by
  intro idxs
  induction idxs with
  | nil => intro nd q tape; rfl
  | cons idx rest ih =>
    intro nd q tape
    rw [fillLoop_cons]
    split
    · exact ih nd q tape
    · split
      · exact ih nd q tape.tail
      · rw [ih _ _ _, List.length_set]

theorem fillLoop_getElem_not_mem (d : List Recipe) :
    ∀ (idxs : List Nat) (nd : List (Option Recipe)) (q : List (String × Int))
      (tape : List Nat) (i : Nat), i ∉ idxs →
      (fillLoop d idxs nd q tape).1[i]? = nd[i]? := by
  intro idxs
  induction idxs with
  | nil => intro nd q tape i _; rfl
  | cons idx rest ih =>
    intro nd q tape i hi
    rw [List.mem_cons, not_or] at hi
    rw [fillLoop_cons]
    split
    · exact ih nd q tape i hi.2
    · split
      · exact ih nd q tape.tail i hi.2
      · rw [ih _ _ _ i hi.2, List.getElem?_set, if_neg (fun he => hi.1 he.symm)]

theorem fillLoop_keys (d : List Recipe) :
    ∀ (idxs : List Nat) (nd : List (Option Recipe)) (q : List (String × Int))
      (tape : List Nat),
      (fillLoop d idxs nd q tape).2.1.map Prod.fst = q.map Prod.fst := by
  intro idxs
  induction idxs with
  | nil => intro nd q tape; rfl
  | cons idx rest ih =>
    intro nd q tape
    rw [fillLoop_cons]
    split
    · exact ih nd q tape
    · split
      · exact ih nd q tape.tail
      · rw [ih _ _ _, decrAll_keys]

theorem chosen_facts {d : List Recipe} {nd : List (Option Recipe)} {cat : String}
    (hne : (d.filter (fun r => r.category == cat && !(nd.contains (some r)))) ≠ [])
    (k : Nat) :
    some (pyChoice (d.filter (fun r => r.category == cat && !(nd.contains (some r)))) k) ∉ nd ∧
    (pyChoice (d.filter (fun r => r.category == cat && !(nd.contains (some r)))) k) ∈ d ∧
    (pyChoice (d.filter (fun r => r.category == cat && !(nd.contains (some r)))) k).category
      = cat := by
  have hr := pyChoice_mem hne k
  rw [List.mem_filter, Bool.and_eq_true] at hr
  refine ⟨?_, hr.1, by simpa using hr.2.1⟩
  intro hmem
  have hcont := hr.2.2
  rw [Bool.not_eq_true', ← Bool.not_eq_true] at hcont
  exact hcont (List.elem_iff.mpr hmem)

theorem fillLoop_nodup (d : List Recipe) :
    ∀ (idxs : List Nat) (nd : List (Option Recipe)) (q : List (String × Int))
      (tape : List Nat),
      (nd.filterMap id).Nodup → ((fillLoop d idxs nd q tape).1.filterMap id).Nodup := by
  intro idxs
  induction idxs with
  | nil => intro nd q tape h; exact h
  | cons idx rest ih =>
    intro nd q tape h
    rw [fillLoop_cons]
    split
    · exact ih nd q tape h
    · split
      · exact ih nd q tape.tail h
      · rename_i hcats havail
        apply ih
        apply nodup_filterMap_set _ _ _ h
        have hne : (d.filter (fun r =>
            r.category == pyChoiceStr ((q.filter (fun kv => 0 < kv.2)).map
                (fun kv => kv.1)) (tape.headD 0) &&
            !(nd.contains (some r)))) ≠ [] := by
          intro hnil
          rw [hnil] at havail
          exact havail rfl
        exact (chosen_facts hne (tape.tail.headD 0)).1

theorem countP_cons_false {α : Type} {p : α → Bool} {a : α} (h : p a = false)
    (l : List α) : (a :: l).countP p = l.countP p := by
  rw [List.countP_cons, h]
  simp

theorem countP_cons_true {α : Type} {p : α → Bool} {a : α} (h : p a = true)
    (l : List α) : (a :: l).countP p = l.countP p + 1 := by
  rw [List.countP_cons, h]
  simp

theorem decrAll_eq_of_not_mem (q : List (String × Int)) (c : String)
    (h : ∀ kv ∈ q, kv.1 ≠ c) : decrAll q c = q := by
  unfold decrAll
  have hcong : ∀ kv ∈ q, (if kv.1 = c then (kv.1, kv.2 - 1) else kv) = id kv := by
    intro kv hkv
    rw [if_neg (h kv hkv)]
    rfl
  rw [List.map_congr_left hcong, List.map_id]

theorem decrAll_sum (q : List (String × Int)) (c : String) :
    (q.map Prod.fst).Nodup → (q.lookup c).isSome →
    ((decrAll q c).map (fun kv => kv.2)).sum = (q.map (fun kv => kv.2)).sum - 1 := by
  induction q with
  | nil => intro _ h; cases h
  | cons kv t ih =>
    intro hnd hsome
    obtain ⟨a, b⟩ := kv
    rw [List.map_cons, List.nodup_cons] at hnd
    by_cases hac : a = c
    · have hamem : a ∉ t.map Prod.fst := hnd.1
      have hrest : decrAll t c = t := by
        apply decrAll_eq_of_not_mem
        intro kv2 hkv2 hkv2c
        apply hamem
        have hk : kv2.1 = a := hkv2c.trans hac.symm
        rw [← hk]
        exact List.mem_map.mpr ⟨kv2, hkv2, rfl⟩
      rw [show decrAll ((a, b) :: t) c = (a, b - 1) :: decrAll t c from by
        unfold decrAll; rw [List.map_cons]; rw [if_pos hac]]
      rw [hrest, List.map_cons, List.map_cons, List.sum_cons, List.sum_cons]
      omega
    · rw [show decrAll ((a, b) :: t) c = (a, b) :: decrAll t c from by
        unfold decrAll; rw [List.map_cons]; rw [if_neg hac]]
      rw [List.lookup_cons] at hsome
      have hbeq : (c == a) = false := by
        simp
        exact fun he => hac he.symm
      simp only [hbeq] at hsome
      rw [List.map_cons, List.map_cons, List.sum_cons, List.sum_cons, ih hnd.2 hsome]
      omega

theorem length_filter_ne {α : Type} [DecidableEq α] :
    ∀ {l : List α} {a : α}, l.Nodup → a ∈ l →
      (l.filter (fun x => !(x == a))).length + 1 = l.length := by
  intro l
  induction l with
  | nil => intro a _ h; cases h
  | cons b t ih =>
    intro a hnd hmem
    rw [List.nodup_cons] at hnd
    by_cases hab : b = a
    · have hcond : (!(b == a)) = false := by simp [hab]
      rw [List.filter_cons, hcond]
      simp only [Bool.false_eq_true, if_false]
      have hfilt : t.filter (fun x => !(x == a)) = t := by
        apply List.filter_eq_self.mpr
        intro x hx
        have hxa : x ≠ a := by
          rintro rfl
          rw [hab] at hnd
          exact hnd.1 hx
        simp [hxa]
      rw [hfilt, List.length_cons]
    · have hat : a ∈ t := by
        rcases List.mem_cons.mp hmem with h1 | h1
        · exact absurd h1.symm hab
        · exact h1
      have hcond : (!(b == a)) = true := by simp [hab]
      rw [List.filter_cons, hcond]
      simp only [if_true]
      rw [List.length_cons, List.length_cons, ← ih hnd.2 hat]

theorem mem_set_iff_of_none {α : Type} {nd : List (Option α)} {idx : Nat} {r : α}
    (hidx : nd[idx]? = some none) {x : α} :
    some x ∈ nd.set idx (some r) ↔ some x ∈ nd ∨ x = r := by
  constructor
  · intro h
    rcases List.mem_or_eq_of_mem_set h with h2 | h2
    · exact Or.inl h2
    · injection h2 with h2
      exact Or.inr h2
  · intro h
    have hlt : idx < nd.length := by
      rcases List.getElem?_eq_some_iff.mp hidx with ⟨h1, _⟩
      exact h1
    rcases h with hmem | rfl
    · obtain ⟨j, hj⟩ := List.mem_iff_getElem?.mp hmem
      have hji : j ≠ idx := by
        rintro rfl
        rw [hidx] at hj
        cases hj
      apply List.mem_iff_getElem?.mpr ⟨j, ?_⟩
      rw [List.getElem?_set, if_neg (fun he => hji he.symm)]
      exact hj
    · apply List.mem_iff_getElem?.mpr ⟨idx, ?_⟩
      rw [List.getElem?_set, if_pos rfl, if_pos hlt]

theorem fillLoop_lookup (d : List Recipe) :
    ∀ (idxs : List Nat) (nd : List (Option Recipe)) (q : List (String × Int))
      (tape : List Nat), idxs.Nodup → (∀ i ∈ idxs, nd[i]? = some none) →
      ∀ c : String, (fillLoop d idxs nd q tape).2.1.lookup c =
        (q.lookup c).map (fun v => v -
          (idxs.countP (fun i => slotCat (fillLoop d idxs nd q tape).1 i == some c) : Int)) := by
  intro idxs
  induction idxs with
  | nil =>
    intro nd q tape _ _ c
    rw [fillLoop_nil]
    cases q.lookup c <;> simp
  | cons idx rest ih =>
    intro nd q tape hnodup hempty c
    rw [List.nodup_cons] at hnodup
    have hidx : nd[idx]? = some none := hempty idx (List.mem_cons_self idx rest)
    have hrest : ∀ i ∈ rest, nd[i]? = some none :=
      fun i hi => hempty i (List.mem_cons_of_mem idx hi)
    rw [fillLoop_cons]
    split
    · rw [countP_cons_false (by
        simp only [slotCat, fillLoop_getElem_not_mem d rest nd q tape idx hnodup.1, hidx]
        rfl)]
      exact ih nd q tape hnodup.2 hrest c
    · split
      · rw [countP_cons_false (by
          simp only [slotCat, fillLoop_getElem_not_mem d rest nd q tape.tail idx hnodup.1,
            hidx]
          rfl)]
        exact ih nd q tape.tail hnodup.2 hrest c
      · rename_i hcats havail
        have hne : (d.filter (fun r =>
            r.category == pyChoiceStr ((q.filter (fun kv => 0 < kv.2)).map
                (fun kv => kv.1)) (tape.headD 0) &&
            !(nd.contains (some r)))) ≠ [] := by
          intro hnil
          rw [hnil] at havail
          exact havail rfl
        obtain ⟨hnotmem, hmemd, hcat⟩ := chosen_facts hne (tape.tail.headD 0)
        have hlt : idx < nd.length := by
          rcases List.getElem?_eq_some_iff.mp hidx with ⟨h1, _⟩
          exact h1
        have hgetF : (fillLoop d rest
            (nd.set idx (some (pyChoice (d.filter (fun r =>
              r.category == pyChoiceStr ((q.filter (fun kv => 0 < kv.2)).map
                  (fun kv => kv.1)) (tape.headD 0) &&
              !(nd.contains (some r)))) (tape.tail.headD 0))))
            (decrAll q (pyChoiceStr ((q.filter (fun kv => 0 < kv.2)).map
                (fun kv => kv.1)) (tape.headD 0)))
            tape.tail.tail).1[idx]? = some (some (pyChoice (d.filter (fun r =>
              r.category == pyChoiceStr ((q.filter (fun kv => 0 < kv.2)).map
                  (fun kv => kv.1)) (tape.headD 0) &&
              !(nd.contains (some r)))) (tape.tail.headD 0))) := by
          rw [fillLoop_getElem_not_mem _ _ _ _ _ idx hnodup.1, List.getElem?_set,
            if_pos rfl, if_pos hlt]
        have hslotF := slotCat_eq hgetF
        rw [hcat] at hslotF
        have hstep := ih (nd.set idx (some (pyChoice (d.filter (fun r =>
              r.category == pyChoiceStr ((q.filter (fun kv => 0 < kv.2)).map
                  (fun kv => kv.1)) (tape.headD 0) &&
              !(nd.contains (some r)))) (tape.tail.headD 0))))
            (decrAll q (pyChoiceStr ((q.filter (fun kv => 0 < kv.2)).map
                (fun kv => kv.1)) (tape.headD 0)))
            tape.tail.tail hnodup.2
            (fun i hi => by
              rw [List.getElem?_set,
                if_neg (fun he => hnodup.1 (by rw [he]; exact hi))]
              exact hrest i hi) c
        rw [hstep, decrAll_lookup]
        by_cases hc : c = pyChoiceStr ((q.filter (fun kv => 0 < kv.2)).map
            (fun kv => kv.1)) (tape.headD 0)
        · have hpred : (slotCat (fillLoop d rest
            (nd.set idx (some (pyChoice (d.filter (fun r =>
              r.category == pyChoiceStr ((q.filter (fun kv => 0 < kv.2)).map
                  (fun kv => kv.1)) (tape.headD 0) &&
              !(nd.contains (some r)))) (tape.tail.headD 0))))
            (decrAll q (pyChoiceStr ((q.filter (fun kv => 0 < kv.2)).map
                (fun kv => kv.1)) (tape.headD 0)))
            tape.tail.tail).1 idx == some c) = true := by
            rw [hslotF, hc]
            exact beq_self_eq_true _
          rw [List.countP_cons]
          rw [if_pos hpred]
          cases q.lookup c with
          | none => rfl
          | some v =>
            rw [Option.map_some', Option.map_some', Option.map_some']
            congr 1
            rw [if_pos hc]
            push_cast
            omega
        · have hpredn : ¬ ((slotCat (fillLoop d rest
            (nd.set idx (some (pyChoice (d.filter (fun r =>
              r.category == pyChoiceStr ((q.filter (fun kv => 0 < kv.2)).map
                  (fun kv => kv.1)) (tape.headD 0) &&
              !(nd.contains (some r)))) (tape.tail.headD 0))))
            (decrAll q (pyChoiceStr ((q.filter (fun kv => 0 < kv.2)).map
                (fun kv => kv.1)) (tape.headD 0)))
            tape.tail.tail).1 idx == some c) = true) := by
            intro hcontra
            rw [hslotF] at hcontra
            have hXc : pyChoiceStr ((q.filter (fun kv => 0 < kv.2)).map
                (fun kv => kv.1)) (tape.headD 0) = c := by simpa using hcontra
            exact hc hXc.symm
          rw [List.countP_cons]
          rw [if_neg hpredn, Nat.add_zero]
          cases q.lookup c with
          | none => rfl
          | some v =>
            rw [Option.map_some', Option.map_some', Option.map_some']
            congr 1
            rw [if_neg hc]

theorem fillLoop_filled_mem (d : List Recipe) :
    ∀ (idxs : List Nat) (nd : List (Option Recipe)) (q : List (String × Int))
      (tape : List Nat), idxs.Nodup → (∀ i ∈ idxs, nd[i]? = some none) →
      ∀ i ∈ idxs, ∀ r : Recipe, (fillLoop d idxs nd q tape).1[i]? = some (some r) →
        r ∈ d ∧ r.category ∈ q.map Prod.fst := by
  intro idxs
  induction idxs with
  | nil => intro nd q tape _ _ i hi; cases hi
  | cons idx rest ih =>
    intro nd q tape hnodup hempty i hi r hget
    rw [List.nodup_cons] at hnodup
    have hidx : nd[idx]? = some none := hempty idx (List.mem_cons_self idx rest)
    have hrest : ∀ j ∈ rest, nd[j]? = some none :=
      fun j hj => hempty j (List.mem_cons_of_mem idx hj)
    have hlt : idx < nd.length := by
      rcases List.getElem?_eq_some_iff.mp hidx with ⟨h1, _⟩
      exact h1
    rw [fillLoop_cons] at hget
    by_cases hcats : (((q.filter (fun kv => 0 < kv.2)).map (fun kv => kv.1)).isEmpty)
    · rw [if_pos hcats] at hget
      rcases List.mem_cons.mp hi with hieq | hirest
      · rw [hieq, fillLoop_getElem_not_mem d rest nd q tape idx hnodup.1, hidx] at hget
        cases hget
      · exact ih nd q tape hnodup.2 hrest i hirest r hget
    · rw [if_neg hcats] at hget
      by_cases havail : ((d.filter (fun r2 =>
          r2.category == pyChoiceStr ((q.filter (fun kv => 0 < kv.2)).map
              (fun kv => kv.1)) (tape.headD 0) &&
          !(nd.contains (some r2)))).isEmpty)
      · rw [if_pos havail] at hget
        rcases List.mem_cons.mp hi with hieq | hirest
        · rw [hieq, fillLoop_getElem_not_mem d rest nd q tape.tail idx hnodup.1,
            hidx] at hget
          cases hget
        · exact ih nd q tape.tail hnodup.2 hrest i hirest r hget
      · rw [if_neg havail] at hget
        have hne : (d.filter (fun r2 =>
            r2.category == pyChoiceStr ((q.filter (fun kv => 0 < kv.2)).map
                (fun kv => kv.1)) (tape.headD 0) &&
            !(nd.contains (some r2)))) ≠ [] := by
          intro hnil
          rw [hnil] at havail
          exact havail rfl
        obtain ⟨hnotmem, hmemd, hcat⟩ := chosen_facts hne (tape.tail.headD 0)
        rcases List.mem_cons.mp hi with hieq | hirest
        · rw [hieq, fillLoop_getElem_not_mem d rest _ _ _ idx hnodup.1,
            List.getElem?_set, if_pos rfl, if_pos hlt] at hget
          injection hget with hget
          injection hget with hget
          subst hget
          refine ⟨hmemd, ?_⟩
          rw [hcat]
          have hcatsne : ((q.filter (fun kv => 0 < kv.2)).map (fun kv => kv.1)) ≠ [] := by
            intro hnil
            rw [hnil] at hcats
            exact hcats rfl
          have hmemcats := pyChoiceStr_mem hcatsne (tape.headD 0)
          obtain ⟨kv, hkv, hkveq⟩ := List.mem_map.mp hmemcats
          rw [← hkveq]
          exact List.mem_map.mpr ⟨kv, (List.mem_filter.mp hkv).1, rfl⟩
        · have hres := ih _ _ tape.tail.tail hnodup.2 (fun j hj => by
            rw [List.getElem?_set, if_neg (fun he => hnodup.1 (by rw [he]; exact hj))]
            exact hrest j hj) i hirest r hget
          refine ⟨hres.1, ?_⟩
          rw [← decrAll_keys q (pyChoiceStr ((q.filter (fun kv => 0 < kv.2)).map
              (fun kv => kv.1)) (tape.headD 0))]
          exact hres.2

theorem candidates_bound_step {d : List Recipe} {nd : List (Option Recipe)} {idx : Nat}
    {cat c : String} {R : Recipe} {v : Int}
    (hdn : d.Nodup) (hidx : nd[idx]? = some none)
    (hRmem : R ∈ d.filter (fun r2 => r2.category == cat && !(nd.contains (some r2))))
    (hbound : v ≤
      ((d.filter (fun r2 => r2.category == c && !(nd.contains (some r2)))).length : Int)) :
    (if c = cat then v - 1 else v) ≤
      ((d.filter (fun r2 => r2.category == c &&
        !((nd.set idx (some R)).contains (some r2)))).length : Int) := by
  have hRc : (R.category == cat) = true := by
    have := (List.mem_filter.mp hRmem).2
    rw [Bool.and_eq_true] at this
    exact this.1
  have hcont : ∀ x : Recipe, ((nd.set idx (some R)).contains (some x)) =
      (nd.contains (some x) || (x == R)) := by
    intro x
    have hiff : some x ∈ nd.set idx (some R) ↔ (some x ∈ nd ∨ x = R) :=
      mem_set_iff_of_none hidx
    have hbeqdec : (x == R) = decide (x = R) := by
      by_cases h : x = R <;> simp [h]
    show ((nd.set idx (some R)).elem (some x)) = (nd.elem (some x) || (x == R))
    rw [List.elem_eq_mem, List.elem_eq_mem, hbeqdec, ← Bool.decide_or]
    exact decide_eq_decide.mpr hiff
  by_cases hc : c = cat
  · subst hc
    rw [if_pos rfl]
    have hfeq : (d.filter (fun r2 => r2.category == c &&
        !((nd.set idx (some R)).contains (some r2)))) =
        (d.filter (fun r2 => r2.category == c && !(nd.contains (some r2)))).filter
          (fun x => !(x == R)) := by
      rw [List.filter_filter]
      apply List.filter_congr
      intro x hx
      rw [hcont x]
      cases hxc : (x.category == c) <;> cases hxm : (nd.contains (some x)) <;>
        cases hxR : (x == R) <;> simp [hxc, hxm, hxR]
    rw [hfeq]
    have hnodupf : (d.filter (fun r2 =>
        r2.category == c && !(nd.contains (some r2)))).Nodup := hdn.filter _
    have hlenf := length_filter_ne hnodupf hRmem
    omega
  · rw [if_neg hc]
    have hfeq2 : (d.filter (fun r2 => r2.category == c &&
        !((nd.set idx (some R)).contains (some r2)))) =
        d.filter (fun r2 => r2.category == c && !(nd.contains (some r2))) := by
      apply List.filter_congr
      intro x hx
      rw [hcont x]
      cases hxc : (x.category == c)
      · simp
      · have hxR : (x == R) = false := by
          apply beq_false_of_ne
          intro he
          apply hc
          have h1 : R.category = cat := by simpa using hRc
          have h2 : x.category = c := by simpa using hxc
          rw [← h1, ← he, h2]
        rw [hxR]
        simp
    rw [hfeq2]
    exact hbound

theorem fillLoop_fills (d : List Recipe) :
    ∀ (idxs : List Nat) (nd : List (Option Recipe)) (q : List (String × Int))
      (tape : List Nat),
      idxs.Nodup →
      (∀ i ∈ idxs, nd[i]? = some none) →
      (q.map Prod.fst).Nodup →
      (∀ kv ∈ q, 0 ≤ kv.2) →
      ((q.map (fun kv => kv.2)).sum = (idxs.length : Int)) →
      d.Nodup →
      (∀ kv ∈ q, kv.2 ≤ ((d.filter (fun r2 =>
        r2.category == kv.1 && !(nd.contains (some r2)))).length : Int)) →
      (∀ i ∈ idxs, ∃ r : Recipe, (fillLoop d idxs nd q tape).1[i]? = some (some r)) ∧
      (∀ kv ∈ q, (fillLoop d idxs nd q tape).2.1.lookup kv.1 = some 0) := by
  intro idxs
  induction idxs with
  | nil =>
    intro nd q tape _ _ hkeys hpos hsum _ _
    rw [fillLoop_nil]
    have hsum0 : (q.map (fun kv => kv.2)).sum = 0 := by simpa using hsum
    have hnn : ∀ x ∈ q.map (fun kv2 => kv2.2), 0 ≤ x := by
      intro x hx
      obtain ⟨kv2, hkv2, rfl⟩ := List.mem_map.mp hx
      exact hpos kv2 hkv2
    refine ⟨fun i hi => absurd hi (List.not_mem_nil i), fun kv hkv => ?_⟩
    have hz : kv.2 = 0 :=
      int_all_zero_of_sum_zero hnn hsum0 kv.2 (List.mem_map.mpr ⟨kv, hkv, rfl⟩)
    have hlk : q.lookup kv.1 = some kv.2 :=
      lookup_eq_some_of_mem hkeys (by rw [Prod.mk.eta]; exact hkv)
    rw [hlk, hz]
  | cons idx rest ih =>
    intro nd q tape hnodup hempty hkeys hpos hsum hdn henough
    rw [List.nodup_cons] at hnodup
    have hidx : nd[idx]? = some none := hempty idx (List.mem_cons_self idx rest)
    have hrest : ∀ j ∈ rest, nd[j]? = some none :=
      fun j hj => hempty j (List.mem_cons_of_mem idx hj)
    have hlt : idx < nd.length := by
      rcases List.getElem?_eq_some_iff.mp hidx with ⟨h1, _⟩
      exact h1
    have hsumpos : 0 < (q.map (fun kv => kv.2)).sum := by
      rw [hsum, List.length_cons]
      push_cast
      omega
    obtain ⟨x, hx, hxpos⟩ := int_exists_pos_of_sum_pos hsumpos
    obtain ⟨kvp, hkvp, rfl⟩ := List.mem_map.mp hx
    have hkvpfilter : kvp ∈ q.filter (fun kv => 0 < kv.2) := by
      rw [List.mem_filter]
      exact ⟨hkvp, by simpa using hxpos⟩
    have hcatsne : ((q.filter (fun kv => 0 < kv.2)).map (fun kv => kv.1)) ≠ [] := by
      intro hnil
      have hm : kvp.1 ∈ ((q.filter (fun kv => 0 < kv.2)).map (fun kv => kv.1)) :=
        List.mem_map.mpr ⟨kvp, hkvpfilter, rfl⟩
      rw [hnil] at hm
      cases hm
    have hcats : ¬ ((((q.filter (fun kv => 0 < kv.2)).map
        (fun kv => kv.1)).isEmpty) = true) := by
      intro hiso
      exact hcatsne (List.isEmpty_iff.mp hiso)
    have hmemcats := pyChoiceStr_mem hcatsne (tape.headD 0)
    obtain ⟨kvc, hkvcf, hkvc1⟩ := List.mem_map.mp hmemcats
    rw [List.mem_filter] at hkvcf
    have hkvcq : kvc ∈ q := hkvcf.1
    have hkvcpos : 0 < kvc.2 := by
      have := hkvcf.2
      simpa using this
    have havailne : (d.filter (fun r2 => r2.category == pyChoiceStr ((q.filter (fun kv => 0 < kv.2)).map (fun kv => kv.1)) (tape.headD 0) && !(nd.contains (some r2)))) ≠ [] := by
      intro hnil
      have hbound := henough kvc hkvcq
      rw [hkvc1, hnil] at hbound
      simp at hbound
      omega
    have havail : ¬ (((d.filter (fun r2 => r2.category == pyChoiceStr ((q.filter (fun kv => 0 < kv.2)).map (fun kv => kv.1)) (tape.headD 0) && !(nd.contains (some r2)))).isEmpty) = true) := by
      intro hiso
      exact havailne (List.isEmpty_iff.mp hiso)
    have hRmem := pyChoice_mem havailne (tape.tail.headD 0)
    have hlkc : (q.lookup (pyChoiceStr ((q.filter (fun kv => 0 < kv.2)).map (fun kv => kv.1)) (tape.headD 0))).isSome := by
      have : q.lookup kvc.1 = some kvc.2 :=
        lookup_eq_some_of_mem hkeys (by rw [Prod.mk.eta]; exact hkvcq)
      rw [← hkvc1, this]
      rfl
    have hemp1 : ∀ j ∈ rest, (nd.set idx (some (pyChoice (d.filter (fun r2 => r2.category == pyChoiceStr ((q.filter (fun kv => 0 < kv.2)).map (fun kv => kv.1)) (tape.headD 0) && !(nd.contains (some r2)))) (tape.tail.headD 0))))[j]? = some none := by
      intro j hj
      rw [List.getElem?_set, if_neg (fun he => hnodup.1 (by rw [he]; exact hj))]
      exact hrest j hj
    have hkeys1 : ((decrAll q (pyChoiceStr ((q.filter (fun kv => 0 < kv.2)).map (fun kv => kv.1)) (tape.headD 0))).map Prod.fst).Nodup := by
      rw [decrAll_keys]
      exact hkeys
    have hpos1 : ∀ kv ∈ (decrAll q (pyChoiceStr ((q.filter (fun kv => 0 < kv.2)).map (fun kv => kv.1)) (tape.headD 0))), 0 ≤ kv.2 := by
      intro kv hkv
      obtain ⟨kv0, hkv0, rfl⟩ := List.mem_map.mp hkv
      by_cases hk : kv0.1 = pyChoiceStr ((q.filter (fun kv => 0 < kv.2)).map (fun kv => kv.1)) (tape.headD 0)
      · rw [if_pos hk]
        have hkv0c : kv0 = kvc := by
          apply eq_of_mem_nodup_keys hkeys hkv0 hkvcq
          rw [hk, hkvc1]
        rw [hkv0c]
        simp only []
        omega
      · rw [if_neg hk]
        exact hpos kv0 hkv0
    have hsum1 : (((decrAll q (pyChoiceStr ((q.filter (fun kv => 0 < kv.2)).map (fun kv => kv.1)) (tape.headD 0))).map (fun kv => kv.2)).sum) = ((rest.length : Nat) : Int) := by
      rw [decrAll_sum q (pyChoiceStr ((q.filter (fun kv => 0 < kv.2)).map (fun kv => kv.1)) (tape.headD 0)) hkeys hlkc, hsum, List.length_cons]
      push_cast
      omega
    have hbound1 : ∀ kv ∈ (decrAll q (pyChoiceStr ((q.filter (fun kv => 0 < kv.2)).map (fun kv => kv.1)) (tape.headD 0))), kv.2 ≤ ((d.filter (fun r2 =>
        r2.category == kv.1 && !((nd.set idx (some (pyChoice (d.filter (fun r2 => r2.category == pyChoiceStr ((q.filter (fun kv => 0 < kv.2)).map (fun kv => kv.1)) (tape.headD 0) && !(nd.contains (some r2)))) (tape.tail.headD 0)))).contains (some r2)))).length : Int) := by
      intro kv hkv
      obtain ⟨kv0, hkv0, rfl⟩ := List.mem_map.mp hkv
      have hstep := candidates_bound_step hdn hidx hRmem (henough kv0 hkv0)
      by_cases hk : kv0.1 = pyChoiceStr ((q.filter (fun kv => 0 < kv.2)).map (fun kv => kv.1)) (tape.headD 0)
      · rw [if_pos hk]
        rw [if_pos hk] at hstep
        simpa using hstep
      · rw [if_neg hk]
        rw [if_neg hk] at hstep
        simpa using hstep
    have ihres := ih (nd.set idx (some (pyChoice (d.filter (fun r2 => r2.category == pyChoiceStr ((q.filter (fun kv => 0 < kv.2)).map (fun kv => kv.1)) (tape.headD 0) && !(nd.contains (some r2)))) (tape.tail.headD 0)))) (decrAll q (pyChoiceStr ((q.filter (fun kv => 0 < kv.2)).map (fun kv => kv.1)) (tape.headD 0))) tape.tail.tail hnodup.2 hemp1 hkeys1 hpos1 hsum1 hdn hbound1
    rw [fillLoop_cons, if_neg hcats, if_neg havail]
    constructor
    · intro i hi
      rcases List.mem_cons.mp hi with hieq | hirest
      · refine ⟨(pyChoice (d.filter (fun r2 => r2.category == pyChoiceStr ((q.filter (fun kv => 0 < kv.2)).map (fun kv => kv.1)) (tape.headD 0) && !(nd.contains (some r2)))) (tape.tail.headD 0)), ?_⟩
        rw [hieq, fillLoop_getElem_not_mem d rest _ _ _ idx hnodup.1,
          List.getElem?_set, if_pos rfl, if_pos hlt]
      · exact ihres.1 i hirest
    · intro kv hkv
      have hmem1 : (if kv.1 = pyChoiceStr ((q.filter (fun kv => 0 < kv.2)).map (fun kv => kv.1)) (tape.headD 0) then (kv.1, kv.2 - 1) else kv) ∈ (decrAll q (pyChoiceStr ((q.filter (fun kv => 0 < kv.2)).map (fun kv => kv.1)) (tape.headD 0))) :=
        List.mem_map.mpr ⟨kv, hkv, rfl⟩
      have hfin := ihres.2 _ hmem1
      by_cases hk : kv.1 = pyChoiceStr ((q.filter (fun kv => 0 < kv.2)).map (fun kv => kv.1)) (tape.headD 0)
      · rw [if_pos hk] at hfin
        exact hfin
      · rw [if_neg hk] at hfin
        exact hfin

/-! ### State shape of successful operations -/

theorem generate_lunch_ok_state {p p' : MealPlanner} {c : Option String} {k : Nat}
    {r : Recipe} (h : p.generate_lunch c k = LunchResult.ok p' r) :
    p' = { p with selected_lunch := some r } := by
  simp only [MealPlanner.generate_lunch] at h
  by_cases ht : truthyOptStr c = true
  · rw [if_pos ht] at h
    by_cases he : ((p.lunch_recipes.filter
        (fun r2 => r2.category == c.getD "")).isEmpty) = true
    · rw [if_pos he] at h
      cases h
    · rw [if_neg he] at h
      injection h with h1 h2
      rw [← h1, h2]
  · rw [if_neg ht] at h
    by_cases he : ((p.lunch_recipes).isEmpty) = true
    · rw [if_pos he] at h
      cases h
    · rw [if_neg he] at h
      injection h with h1 h2
      rw [← h1, h2]

theorem generate_dinners_ok_state {p p' : MealPlanner} {q q' : List (String × Int)}
    {locked tape : List Nat} {nd : List (Option Recipe)}
    (h : p.generate_dinners q locked tape = GenResult.ok p' q' nd) :
    p'.selected_dinners = nd ∧ p'.lunch_recipes = p.lunch_recipes ∧
    p'.dinner_recipes = p.dinner_recipes ∧ p'.selected_lunch = p.selected_lunch ∧
    nd.length = 5 ∧
    ((p.selected_dinners.filterMap id).Nodup → (nd.filterMap id).Nodup) := by
  rw [generate_dinners_eq] at h
  by_cases hs : ((q.map (fun kv => kv.2)).sum ≠ (5 : Int) - locked.length)
  · rw [if_pos hs] at h
    cases h
  · rw [if_neg hs] at h
    cases hl : lockLoop p.selected_dinners locked (List.replicate 5 none) q with
    | error q1 =>
      rw [hl] at h
      cases h
    | ok pr =>
      obtain ⟨nd1, q1⟩ := pr
      rw [hl] at h
      replace h : (match fillLoop p.dinner_recipes (emptyIndices nd1) nd1 q1 tape with
        | (nd2, q2, _) => GenResult.ok { p with selected_dinners := nd2 } q2 nd2) =
          GenResult.ok p' q' nd := h
      cases hf : fillLoop p.dinner_recipes (emptyIndices nd1) nd1 q1 tape with
      | mk nd2 pr2 =>
        obtain ⟨q2, t2⟩ := pr2
        rw [hf] at h
        replace h : GenResult.ok { p with selected_dinners := nd2 } q2 nd2 =
            GenResult.ok p' q' nd := h
        injection h with h1 h2 h3
        subst h3
        refine ⟨by rw [← h1], by rw [← h1], by rw [← h1], by rw [← h1], ?_, ?_⟩
        · have hfl := fillLoop_length p.dinner_recipes (emptyIndices nd1) nd1 q1 tape
          rw [hf] at hfl
          rw [show ((nd2, q2, t2) : List (Option Recipe) × List (String × Int) ×
            List Nat).1 = nd2 from rfl] at hfl
          rw [hfl, lockLoop_ok_length p.selected_dinners locked _ _ hl,
            List.length_replicate]
        · intro hnodup
          have hbase : ∀ (i : Nat) (oi : Option Recipe),
              (List.replicate 5 (none : Option Recipe))[i]? = some oi →
              oi = none ∨ p.selected_dinners[i]? = some oi := by
            intro i oi hoi
            rw [List.getElem?_replicate] at hoi
            by_cases hi : i < 5
            · rw [if_pos hi] at hoi
              injection hoi with hoi
              exact Or.inl hoi.symm
            · rw [if_neg hi] at hoi
              cases hoi
          have hdom := lockLoop_ok_dom p.selected_dinners locked _ _ hl hbase
          have hnd1 : (nd1.filterMap id).Nodup :=
            nodup_filterMap_of_dominated hdom hnodup
          have hfn := fillLoop_nodup p.dinner_recipes (emptyIndices nd1) nd1 q1 tape hnd1
          rw [hf] at hfn
          exact hfn

theorem reachable_inv {recipes : List Recipe} {s : MealPlanner}
    (h : Reachable recipes s) :
    (s.selected_dinners.length = 0 ∨ s.selected_dinners.length = 5) ∧
    (s.selected_dinners.filterMap id).Nodup := by
  induction h with
  | init => exact ⟨Or.inl rfl, List.nodup_nil⟩
  | lunch hr hok ih =>
    rw [generate_lunch_ok_state hok]
    exact ih
  | dinners hr hok ih =>
    obtain ⟨hnd, -, -, -, hlen, hnodup⟩ := generate_dinners_ok_state hok
    refine ⟨Or.inr ?_, ?_⟩
    · rw [hnd]
      exact hlen
    · rw [hnd]
      exact hnodup ih.2

theorem contains_eq_true_of_mem {α : Type} [DecidableEq α] {l : List α} {a : α}
    (h : a ∈ l) : l.contains a = true := List.elem_eq_true_of_mem h

theorem contains_eq_false_of_not_mem {α : Type} [DecidableEq α] {l : List α} {a : α}
    (h : a ∉ l) : l.contains a = false := by
  show l.elem a = false
  rw [List.elem_eq_mem]
  simp [h]

theorem mem_emptyIndices {nd : List (Option Recipe)} {i : Nat} (hlen : nd.length = 5) :
    i ∈ emptyIndices nd ↔ i < 5 ∧ nd[i]? = some none := by
  rw [emptyIndices, List.mem_filter, List.mem_range]
  constructor
  · rintro ⟨hi5, hisnone⟩
    refine ⟨hi5, ?_⟩
    rw [List.getD_eq_getElem?_getD] at hisnone
    cases hg : nd[i]? with
    | none =>
      exfalso
      rw [List.getElem?_eq_none_iff] at hg
      omega
    | some o =>
      rw [hg] at hisnone
      cases o with
      | none => rfl
      | some r => simp at hisnone
  · rintro ⟨hi5, hg⟩
    refine ⟨hi5, ?_⟩
    rw [List.getD_eq_getElem?_getD, hg]
    rfl

theorem generate_dinners_locked_spec (p : MealPlanner) (q q' : List (String × Int))
    (locked tape : List Nat) (p' : MealPlanner) (nd : List (Option Recipe))
    (hlen : p.selected_dinners.length = 5)
    (hvalid : ∀ j ∈ locked, ∃ r, p.selected_dinners[j]? = some (some r))
    (hok : p.generate_dinners q locked tape = GenResult.ok p' q' nd) :
    (∀ j ∈ locked, nd[j]? = p.selected_dinners[j]?) ∧
    (q'.map Prod.fst = q.map Prod.fst) ∧
    (∀ c : String, q'.lookup c = (q.lookup c).map (fun v =>
      v - (lockedHits p.selected_dinners locked c : Int)
        - (newHits nd locked c : Int))) := by
  rw [generate_dinners_eq] at hok
  by_cases hs : ((q.map (fun kv => kv.2)).sum ≠ (5 : Int) - locked.length)
  · rw [if_pos hs] at hok
    cases hok
  · rw [if_neg hs] at hok
    obtain ⟨nd1, q1, heq, hkeep, hother, hquota⟩ :=
      lockLoop_keep p.selected_dinners locked (List.replicate 5 none) q hvalid
        (fun j hj => by
          rw [List.length_replicate]
          rcases hvalid j hj with ⟨r, hr⟩
          rcases List.getElem?_eq_some_iff.mp hr with ⟨hjl, -⟩
          rw [hlen] at hjl
          exact hjl)
    rw [heq] at hok
    replace hok : (match fillLoop p.dinner_recipes (emptyIndices nd1) nd1 q1 tape with
      | (nd2, q2, _) => GenResult.ok { p with selected_dinners := nd2 } q2 nd2) =
        GenResult.ok p' q' nd := hok
    have hnd1len : nd1.length = 5 := by
      rw [lockLoop_ok_length p.selected_dinners locked _ _ heq, List.length_replicate]
    cases hf : fillLoop p.dinner_recipes (emptyIndices nd1) nd1 q1 tape with
    | mk nd2 pr2 =>
      obtain ⟨q2, t2⟩ := pr2
      rw [hf] at hok
      replace hok : GenResult.ok { p with selected_dinners := nd2 } q2 nd2 =
          GenResult.ok p' q' nd := hok
      injection hok with h1 h2 h3
      subst h3
      subst h2
      have hempnodup : (emptyIndices nd1).Nodup := (List.nodup_range 5).filter _
      have hempmem : ∀ i ∈ emptyIndices nd1, nd1[i]? = some none :=
        fun i hi => ((mem_emptyIndices hnd1len).mp hi).2
      have hlocknotmem : ∀ j ∈ locked, j ∉ emptyIndices nd1 := by
        intro j hj hjm
        have hn := ((mem_emptyIndices hnd1len).mp hjm).2
        rw [hkeep j hj] at hn
        rcases hvalid j hj with ⟨r, hr⟩
        rw [hr] at hn
        cases hn
      refine ⟨?_, ?_, ?_⟩
      · intro j hj
        have hnm := fillLoop_getElem_not_mem p.dinner_recipes (emptyIndices nd1) nd1 q1
          tape j (hlocknotmem j hj)
        rw [hf] at hnm
        rw [show ((nd2, q2, t2) : List (Option Recipe) × List (String × Int) ×
          List Nat).1 = nd2 from rfl] at hnm
        rw [hnm]
        exact hkeep j hj
      · have hks := fillLoop_keys p.dinner_recipes (emptyIndices nd1) nd1 q1 tape
        rw [hf] at hks
        rw [show ((nd2, q2, t2) : List (Option Recipe) × List (String × Int) ×
          List Nat).2.1 = q2 from rfl] at hks
        rw [hks, lockLoop_ok_keys p.selected_dinners locked _ _ heq]
      · intro c
        have hfl := fillLoop_lookup p.dinner_recipes (emptyIndices nd1) nd1 q1 tape
          hempnodup hempmem c
        rw [hf] at hfl
        rw [show ((nd2, q2, t2) : List (Option Recipe) × List (String × Int) ×
          List Nat).2.1 = q2 from rfl,
          show ((nd2, q2, t2) : List (Option Recipe) × List (String × Int) ×
          List Nat).1 = nd2 from rfl] at hfl
        have hgetnd1 : ∀ i : Nat, i < 5 → i ∉ locked → nd1[i]? = some none := by
          intro i hi5 hnl
          rw [hother i hnl, List.getElem?_replicate, if_pos hi5]
        have hcount : (emptyIndices nd1).countP (fun i => slotCat nd2 i == some c) =
            newHits nd2 locked c := by
          rw [emptyIndices, List.countP_filter, newHits]
          apply List.countP_congr
          intro i hi
          rw [List.mem_range] at hi
          have hiso : ((nd1.getD i none).isNone) = !(locked.contains i) := by
            by_cases hmem : i ∈ locked
            · rw [contains_eq_true_of_mem hmem]
              rcases hvalid i hmem with ⟨r, hr⟩
              rw [List.getD_eq_getElem?_getD, hkeep i hmem, hr]
              rfl
            · rw [contains_eq_false_of_not_mem hmem]
              rw [List.getD_eq_getElem?_getD, hgetnd1 i hi hmem]
              rfl
          constructor
          · intro hb
            rw [Bool.and_eq_true] at hb
            rw [Bool.and_eq_true]
            rw [hiso] at hb
            exact ⟨hb.2, hb.1⟩
          · intro hb
            rw [Bool.and_eq_true] at hb
            rw [Bool.and_eq_true, hiso]
            exact ⟨hb.2, hb.1⟩
        rw [hcount] at hfl
        rw [hfl, hquota c]
        cases q.lookup c with
        | none => rfl
        | some v =>
          rw [Option.map_some', Option.map_some', Option.map_some']

/-! ### C3 -/

/-- C3 (amended): on a plan whose `dinnerSlots` has its 5 entries and whose
locked indices all refer to filled slots — the shape every reachable plan has
once a generation has succeeded — a successful `generate_dinners` leaves each
locked slot holding exactly the recipe it held before, so newly chosen recipes
are assigned only to unlocked indices.  (On a fresh plan, whose `dinnerSlots`
is the empty list, the lock guard `0 <= idx < len(self.selected_dinners)`
fails, the lock is silently ignored, and the "locked" slot is newly filled —
see the counterexample.) -/
theorem C3_locked_slots_preserved (p : MealPlanner) (q q' : List (String × Int))
    (locked tape : List Nat) (p' : MealPlanner) (nd : List (Option Recipe)) (idx : Nat)
    (hlen : p.selected_dinners.length = 5)
    (hvalid : ∀ j ∈ locked, ∃ r, p.selected_dinners[j]? = some (some r))
    (hok : p.generate_dinners q locked tape = GenResult.ok p' q' nd)
    (hidx : idx ∈ locked) :
    nd[idx]? = p.selected_dinners[idx]? :=
  (generate_dinners_locked_spec p q q' locked tape p' nd hlen hvalid hok).1 idx hidx

/-- Witness for `C3_locked_slots_preserved`: slot 2 is locked and keeps its
recipe across a regeneration. -/
theorem C3_locked_slots_preserved_witness :
    (([some (sampleRecipe "r1" "A"), some (sampleRecipe "r2" "A"),
       some (sampleRecipe "r3" "A"), some (sampleRecipe "r4" "A"), none] :
      List (Option Recipe)))[2]? = lockedPlanner.selected_dinners[2]? :=
  C3_locked_slots_preserved lockedPlanner [("A", 4)] [("A", 0)] [2]
    (List.replicate 12 0)
    { lockedPlanner with selected_dinners := [some (sampleRecipe "r1" "A"),
        some (sampleRecipe "r2" "A"), some (sampleRecipe "r3" "A"),
        some (sampleRecipe "r4" "A"), none] }
    [some (sampleRecipe "r1" "A"), some (sampleRecipe "r2" "A"),
     some (sampleRecipe "r3" "A"), some (sampleRecipe "r4" "A"), none]
    2 rfl
    (by
      intro j hj
      rw [List.mem_singleton] at hj
      subst hj
      exact ⟨sampleRecipe "r3" "A", rfl⟩)
    rfl
    (List.mem_singleton.mpr rfl)

/-- C3 counterexample: on a freshly created plan (`dinnerSlots = []`) the
caller locks index 0, yet the call succeeds and a newly chosen recipe is
assigned to the locked index 0 (it held nothing before). -/
theorem C3_counterexample :
    (MealPlanner.init catalogA5).selected_dinners = [] ∧
    (MealPlanner.init catalogA5).generate_dinners [("A", 4)] [0]
        (List.replicate 12 0) =
      GenResult.ok
        { MealPlanner.init catalogA5 with selected_dinners :=
            [some (sampleRecipe "r1" "A"), some (sampleRecipe "r2" "A"),
             some (sampleRecipe "r3" "A"), some (sampleRecipe "r4" "A"), none] }
        [("A", 0)]
        [some (sampleRecipe "r1" "A"), some (sampleRecipe "r2" "A"),
         some (sampleRecipe "r3" "A"), some (sampleRecipe "r4" "A"), none] :=
  ⟨rfl, rfl⟩

/-! ### C4 -/

/-- C4 (amended): `dinnerSlots` does NOT always have 5 entries: at creation it
is the empty list (0 entries).  In every reachable plan state it has either 0
or exactly 5 entries, and after every successful `generate_dinners` the new
state has exactly 5. -/
theorem C4_dinner_slot_count (recipes : List Recipe) (s : MealPlanner)
    (hreach : Reachable recipes s) :
    (s.selected_dinners.length = 0 ∨ s.selected_dinners.length = 5) ∧
    (∀ (q q' : List (String × Int)) (locked tape : List Nat) (p' : MealPlanner)
      (nd : List (Option Recipe)),
      s.generate_dinners q locked tape = GenResult.ok p' q' nd →
      p'.selected_dinners.length = 5) := by
  refine ⟨(reachable_inv hreach).1, ?_⟩
  intro q q' locked tape p' nd hok
  obtain ⟨hnd, -, -, -, hlen5, -⟩ := generate_dinners_ok_state hok
  rw [hnd]
  exact hlen5

/-- Witness for `C4_dinner_slot_count` at the initial state. -/
theorem C4_dinner_slot_count_witness :
    ((MealPlanner.init catalogA5).selected_dinners.length = 0 ∨
      (MealPlanner.init catalogA5).selected_dinners.length = 5) ∧
    (∀ (q q' : List (String × Int)) (locked tape : List Nat) (p' : MealPlanner)
      (nd : List (Option Recipe)),
      (MealPlanner.init catalogA5).generate_dinners q locked tape =
        GenResult.ok p' q' nd →
      p'.selected_dinners.length = 5) :=
  C4_dinner_slot_count catalogA5 (MealPlanner.init catalogA5) Reachable.init

/-- C4 counterexample: the state at creation is reachable and its
`dinnerSlots` has 0 entries, not 5. -/
theorem C4_counterexample :
    Reachable catalogA5 (MealPlanner.init catalogA5) ∧
    (MealPlanner.init catalogA5).selected_dinners.length = 0 :=
  ⟨Reachable.init, rfl⟩

/-! ### C5 -/

/-- C5: after every successful `generate_dinners` call on a reachable plan
state, no two filled dinner slots reference the same recipe: the filled
entries of the returned slot list are pairwise distinct. -/
theorem C5_no_duplicate_dinners (recipes : List Recipe) (p : MealPlanner)
    (q q' : List (String × Int)) (locked tape : List Nat) (p' : MealPlanner)
    (nd : List (Option Recipe))
    (hreach : Reachable recipes p)
    (hok : p.generate_dinners q locked tape = GenResult.ok p' q' nd) :
    (nd.filterMap id).Nodup := by
  obtain ⟨-, -, -, -, -, hnodup⟩ := generate_dinners_ok_state hok
  exact hnodup (reachable_inv hreach).2

/-- Witness for `C5_no_duplicate_dinners` on a concrete full generation. -/
theorem C5_no_duplicate_dinners_witness :
    (([some (sampleRecipe "r1" "A"), some (sampleRecipe "r2" "A"),
       some (sampleRecipe "r3" "A"), some (sampleRecipe "r4" "A"),
       some (sampleRecipe "r5" "A")] : List (Option Recipe)).filterMap id).Nodup :=
  C5_no_duplicate_dinners catalogA5 (MealPlanner.init catalogA5) [("A", 5)]
    [("A", 0)] [] (List.replicate 12 0)
    { MealPlanner.init catalogA5 with selected_dinners :=
        [some (sampleRecipe "r1" "A"), some (sampleRecipe "r2" "A"),
         some (sampleRecipe "r3" "A"), some (sampleRecipe "r4" "A"),
         some (sampleRecipe "r5" "A")] }
    [some (sampleRecipe "r1" "A"), some (sampleRecipe "r2" "A"),
     some (sampleRecipe "r3" "A"), some (sampleRecipe "r4" "A"),
     some (sampleRecipe "r5" "A")]
    Reachable.init rfl

/-! ### C10 -/

/-- C10 (amended): `generate_dinners` mutates the caller's quota dict in
place: on a successful call from a 5-entry plan with validly locked slots,
the dict comes back with the same keys in the same order, and each key's
count decremented once per preserved locked slot of that category (when the
category is a key) and once per newly filled slot of that category.  A
successful call need not change the dict at all — when no slot can be filled
the caller's mapping still holds exactly the values it was passed with (see
the counterexample). -/
theorem C10_quota_mutated (p : MealPlanner) (q q' : List (String × Int))
    (locked tape : List Nat) (p' : MealPlanner) (nd : List (Option Recipe))
    (c : String)
    (hlen : p.selected_dinners.length = 5)
    (hvalid : ∀ j ∈ locked, ∃ r, p.selected_dinners[j]? = some (some r))
    (hok : p.generate_dinners q locked tape = GenResult.ok p' q' nd) :
    q'.map Prod.fst = q.map Prod.fst ∧
    q'.lookup c = (q.lookup c).map (fun v =>
      v - (lockedHits p.selected_dinners locked c : Int)
        - (newHits nd locked c : Int)) :=
  ⟨(generate_dinners_locked_spec p q q' locked tape p' nd hlen hvalid hok).2.1,
   (generate_dinners_locked_spec p q q' locked tape p' nd hlen hvalid hok).2.2 c⟩

/-- Witness for `C10_quota_mutated`: quota `{"A": 4}` with slot 2 locked on an
`"A"` recipe comes back as `{"A": 0}` — one decrement for the preserved lock,
three for the newly filled slots. -/
theorem C10_quota_mutated_witness :
    ([(("A" : String), (0 : Int))].map Prod.fst =
      [(("A" : String), (4 : Int))].map Prod.fst) ∧
    ([(("A" : String), (0 : Int))].lookup "A" =
      ([(("A" : String), (4 : Int))].lookup "A").map (fun v =>
        v - (lockedHits lockedPlanner.selected_dinners [2] "A" : Int)
          - (newHits [some (sampleRecipe "r1" "A"), some (sampleRecipe "r2" "A"),
              some (sampleRecipe "r3" "A"), some (sampleRecipe "r4" "A"), none]
              [2] "A" : Int))) :=
  C10_quota_mutated lockedPlanner [("A", 4)] [("A", 0)] [2] (List.replicate 12 0)
    { lockedPlanner with selected_dinners := [some (sampleRecipe "r1" "A"),
        some (sampleRecipe "r2" "A"), some (sampleRecipe "r3" "A"),
        some (sampleRecipe "r4" "A"), none] }
    [some (sampleRecipe "r1" "A"), some (sampleRecipe "r2" "A"),
     some (sampleRecipe "r3" "A"), some (sampleRecipe "r4" "A"), none]
    "A" rfl
    (by
      intro j hj
      rw [List.mem_singleton] at hj
      subst hj
      exact ⟨sampleRecipe "r3" "A", rfl⟩)
    rfl

/-- C10 counterexample: with an empty dinner pool nothing can be filled, the
call still succeeds, and the caller's quota dict comes back exactly as it was
passed — `{"A": 5}` — contradicting the claim that after a successful call
the mapping no longer holds the values it was passed with. -/
theorem C10_counterexample :
    (MealPlanner.init []).generate_dinners [("A", 5)] [] [] =
      GenResult.ok
        { MealPlanner.init [] with selected_dinners := List.replicate 5 none }
        [("A", 5)] (List.replicate 5 none) := rfl

/-! ### C1 -/

/-- C1 (amended): when each requested category holds at least its requested
quota of distinct dinner recipes (a total of 5 recipes across the requested
categories is not enough — see the counterexample), `generate_dinners` with a
nonnegative quota summing to 5 and no locks always — on every random tape —
returns 5 filled slots holding pairwise-distinct recipes whose per-category
counts match the requested quota exactly. -/
theorem C1_full_generation (p : MealPlanner) (q q' : List (String × Int))
    (tape : List Nat) (p' : MealPlanner) (nd : List (Option Recipe))
    (hkeys : (q.map Prod.fst).Nodup)
    (hpos : ∀ kv ∈ q, 0 ≤ kv.2)
    (hsum : (q.map (fun kv => kv.2)).sum = 5)
    (hdn : p.dinner_recipes.Nodup)
    (henough : ∀ kv ∈ q, kv.2 ≤
      ((p.dinner_recipes.filter (fun r2 => r2.category == kv.1)).length : Int))
    (hok : p.generate_dinners q [] tape = GenResult.ok p' q' nd) :
    nd.length = 5 ∧
    (∀ i : Nat, i < 5 → ∃ r : Recipe, nd[i]? = some (some r)) ∧
    (nd.filterMap id).Nodup ∧
    (∀ c : String,
      (((List.range 5).countP (fun i => slotCat nd i == some c)) : Int) =
        (q.lookup c).getD 0) := by
  rw [generate_dinners_eq] at hok
  rw [if_neg (by
    rw [hsum]
    simp)] at hok
  replace hok : (match fillLoop p.dinner_recipes ([0, 1, 2, 3, 4])
      (List.replicate 5 none) q tape with
    | (nd2, q2, _) => GenResult.ok { p with selected_dinners := nd2 } q2 nd2) =
      GenResult.ok p' q' nd := hok
  have hemnodup : ([0, 1, 2, 3, 4] : List Nat).Nodup := by decide
  have hem : ∀ i ∈ ([0, 1, 2, 3, 4] : List Nat),
      (List.replicate 5 (none : Option Recipe))[i]? = some none := by decide
  have hsum5 : (q.map (fun kv => kv.2)).sum =
      ((([0, 1, 2, 3, 4] : List Nat).length : Nat) : Int) := by
    rw [hsum]
    rfl
  have hbound : ∀ kv ∈ q, kv.2 ≤ ((p.dinner_recipes.filter (fun r2 =>
      r2.category == kv.1 &&
      !((List.replicate 5 (none : Option Recipe)).contains (some r2)))).length : Int) := by
    intro kv hkv
    have hfeq : p.dinner_recipes.filter (fun r2 => r2.category == kv.1 &&
        !((List.replicate 5 (none : Option Recipe)).contains (some r2))) =
        p.dinner_recipes.filter (fun r2 => r2.category == kv.1) := by
      apply List.filter_congr
      intro x hx
      have hcf : ((List.replicate 5 (none : Option Recipe)).contains (some x)) = false := by
        show ((List.replicate 5 (none : Option Recipe)).elem (some x)) = false
        rw [List.elem_eq_mem]
        simp [List.mem_replicate]
      rw [hcf]
      simp
    rw [hfeq]
    exact henough kv hkv
  have hfills := fillLoop_fills p.dinner_recipes [0, 1, 2, 3, 4]
    (List.replicate 5 none) q tape hemnodup hem hkeys hpos hsum5 hdn hbound
  have hflen := fillLoop_length p.dinner_recipes [0, 1, 2, 3, 4]
    (List.replicate 5 none) q tape
  have hfnodup := fillLoop_nodup p.dinner_recipes [0, 1, 2, 3, 4]
    (List.replicate 5 none) q tape (by decide)
  have hflook := fun c => fillLoop_lookup p.dinner_recipes [0, 1, 2, 3, 4]
    (List.replicate 5 none) q tape hemnodup hem c
  have hfmem := fillLoop_filled_mem p.dinner_recipes [0, 1, 2, 3, 4]
    (List.replicate 5 none) q tape hemnodup hem
  cases hf : fillLoop p.dinner_recipes [0, 1, 2, 3, 4] (List.replicate 5 none) q tape with
  | mk nd2 pr2 =>
    obtain ⟨q2, t2⟩ := pr2
    rw [hf] at hok hfills hflen hfnodup hfmem
    replace hok : GenResult.ok { p with selected_dinners := nd2 } q2 nd2 =
        GenResult.ok p' q' nd := hok
    injection hok with h1 h2 h3
    subst h3
    subst h2
    refine ⟨?_, ?_, ?_, ?_⟩
    · rw [show ((nd2, q2, t2) : List (Option Recipe) × List (String × Int) ×
        List Nat).1 = nd2 from rfl] at hflen
      rw [hflen, List.length_replicate]
    · intro i hi5
      have hmem : i ∈ ([0, 1, 2, 3, 4] : List Nat) := by
        rw [show ([0, 1, 2, 3, 4] : List Nat) = List.range 5 from rfl]
        exact List.mem_range.mpr hi5
      exact hfills.1 i hmem
    · exact hfnodup
    · intro c
      have hlook := hflook c
      rw [hf] at hlook
      rw [show List.range 5 = ([0, 1, 2, 3, 4] : List Nat) from rfl]
      cases hq : q.lookup c with
      | some v =>
        have hmemq : (c, v) ∈ q := mem_of_lookup_eq_some hq
        have hzero := hfills.2 (c, v) hmemq
        rw [show ((nd2, q2, t2) : List (Option Recipe) × List (String × Int) ×
          List Nat).2.1 = q2 from rfl] at hlook hzero
        rw [show ((nd2, q2, t2) : List (Option Recipe) × List (String × Int) ×
          List Nat).1 = nd2 from rfl] at hlook
        rw [hq, Option.map_some'] at hlook
        rw [hzero] at hlook
        injection hlook with hlook
        rw [Option.getD_some]
        omega
      | none =>
        rw [Option.getD_none]
        have hcnt : ([0, 1, 2, 3, 4] : List Nat).countP
            (fun i => slotCat nd2 i == some c) = 0 := by
          rw [List.countP_eq_zero]
          intro i hi
          obtain ⟨r, hr⟩ := hfills.1 i hi
          rw [show ((nd2, q2, t2) : List (Option Recipe) × List (String × Int) ×
            List Nat).1 = nd2 from rfl] at hr
          have hmc := hfmem i hi r (by
            rw [show ((nd2, q2, t2) : List (Option Recipe) × List (String × Int) ×
              List Nat).1 = nd2 from rfl]
            exact hr)
          rw [List.lookup_eq_none_iff] at hq
          obtain ⟨kv, hkv, hkveq⟩ := List.mem_map.mp hmc.2
          have hcne := hq kv hkv
          rw [slotCat_eq hr]
          intro hcontra
          have : r.category = c := by simpa using hcontra
          rw [hkveq, this] at hcne
          simp at hcne
        rw [hcnt]
        rfl

/-- Witness for `C1_full_generation` on a catalog of five distinct `"A"`
recipes with quota `{"A": 5}`. -/
theorem C1_full_generation_witness :
    ndA5.length = 5 ∧
    (∀ i : Nat, i < 5 → ∃ r : Recipe, ndA5[i]? = some (some r)) ∧
    (ndA5.filterMap id).Nodup ∧
    (∀ c : String,
      (((List.range 5).countP (fun i => slotCat ndA5 i == some c)) : Int) =
        (([(("A" : String), (5 : Int))].lookup c).getD 0)) :=
  C1_full_generation (MealPlanner.init catalogA5) [("A", 5)] [("A", 0)]
    (List.replicate 12 0)
    { MealPlanner.init catalogA5 with selected_dinners := ndA5 } ndA5
    (by decide) (by decide) (by decide) (by decide) (by decide) rfl

/-- C1 counterexample: five distinct dinner recipes across the two requested
categories (four of `"A"`, one of `"B"`), quota `{"A": 3, "B": 2}` summing to
5, no locks — yet the returned plan has slot 4 unfilled (and quota `"B"` is
left at 1): only 4 distinct recipes could be placed, so the claim's
per-catalog precondition is too weak. -/
theorem C1_counterexample :
    catalogAB.Nodup ∧ catalogAB.length = 5 ∧
    (MealPlanner.init catalogAB).dinner_recipes = catalogAB ∧
    (catalogAB.all (fun r => r.category == "A" || r.category == "B")) = true ∧
    ((([(("A" : String), (3 : Int)), ("B", 2)]).map (fun kv => kv.2)).sum = 5) ∧
    (MealPlanner.init catalogAB).generate_dinners [("A", 3), ("B", 2)] []
        (List.replicate 12 0) =
      GenResult.ok
        { MealPlanner.init catalogAB with selected_dinners :=
            [some (sampleRecipe "a1" "A"), some (sampleRecipe "a2" "A"),
             some (sampleRecipe "a3" "A"), some (sampleRecipe "b1" "B"), none] }
        [("A", 0), ("B", 1)]
        [some (sampleRecipe "a1" "A"), some (sampleRecipe "a2" "A"),
         some (sampleRecipe "a3" "A"), some (sampleRecipe "b1" "B"), none] :=
  ⟨by decide, rfl, rfl, rfl, rfl, rfl⟩

/-! ### C6: grocery-list aggregation -/

theorem lookup_append_some {γ : Type} :
    ∀ {l : List (String × γ)} (l' : List (String × γ)) {k : String} {v : γ},
      l.lookup k = some v → (l ++ l').lookup k = some v := by
  intro l
  induction l with
  | nil => intro l' k v h; cases h
  | cons e t ih =>
    intro l' k v h
    obtain ⟨a, b⟩ := e
    rw [List.cons_append, List.lookup_cons]
    rw [List.lookup_cons] at h
    by_cases hk : k = a
    · have hbeq : (k == a) = true := by simpa using hk
      simp only [hbeq] at h ⊢
      exact h
    · have hbeq : (k == a) = false := by simpa using hk
      simp only [hbeq] at h ⊢
      exact ih l' h

theorem lookup_append_none {γ : Type} :
    ∀ {l : List (String × γ)} (l' : List (String × γ)) {k : String},
      l.lookup k = none → (l ++ l').lookup k = l'.lookup k := by
  intro l
  induction l with
  | nil => intro l' k _; rfl
  | cons e t ih =>
    intro l' k h
    obtain ⟨a, b⟩ := e
    rw [List.cons_append, List.lookup_cons]
    rw [List.lookup_cons] at h
    by_cases hk : k = a
    · have hbeq : (k == a) = true := by simpa using hk
      simp only [hbeq] at h
      cases h
    · have hbeq : (k == a) = false := by simpa using hk
      simp only [hbeq] at h ⊢
      exact ih l' h

theorem updateGrocery_lookup_self (gl : List (String × Int × String)) (ing : String)
    (a : Int) (u : String) :
    (updateGrocery gl ing a u).lookup ing =
      some ((((gl.lookup ing).map Prod.fst).getD 0) + a, u) := by
  unfold updateGrocery
  split
  case isTrue hp =>
    have h : (gl.map (fun e => if e.1 = ing then (e.1, e.2.1 + a, u) else e)).lookup ing =
        (gl.lookup ing).map (fun v => if ing = ing then (v.1 + a, u) else v) :=
      lookup_map_ite gl ing ing (fun v => (v.1 + a, u))
    rw [h]
    cases hg : gl.lookup ing with
    | none => rw [hg] at hp; simp at hp
    | some v => simp
  case isFalse hp =>
    have hn : gl.lookup ing = none := by
      cases hg : gl.lookup ing with
      | none => rfl
      | some v => rw [hg] at hp; simp at hp
    rw [lookup_append_none _ hn, hn]
    rw [List.lookup_cons]
    simp

theorem updateGrocery_lookup_other (gl : List (String × Int × String))
    {ing ing' : String} (a : Int) (u : String) (h : ing' ≠ ing) :
    (updateGrocery gl ing a u).lookup ing' = gl.lookup ing' := by
  unfold updateGrocery
  split
  case isTrue hp =>
    have h2 : (gl.map (fun e => if e.1 = ing then (e.1, e.2.1 + a, u) else e)).lookup ing' =
        (gl.lookup ing').map (fun v => if ing' = ing then (v.1 + a, u) else v) :=
      lookup_map_ite gl ing ing' (fun v => (v.1 + a, u))
    rw [h2]
    cases gl.lookup ing' with
    | none => rfl
    | some v => rw [Option.map_some', if_neg h]
  case isFalse hp =>
    cases hg : gl.lookup ing' with
    | some v => exact lookup_append_some _ hg
    | none =>
      rw [lookup_append_none _ hg]
      rw [List.lookup_cons]
      have hbeq : (ing' == ing) = false := by simpa using h
      simp only [hbeq]
      rfl

theorem updateGrocery_nodup (gl : List (String × Int × String)) (ing : String)
    (a : Int) (u : String) (h : (gl.map Prod.fst).Nodup) :
    ((updateGrocery gl ing a u).map Prod.fst).Nodup := by
  unfold updateGrocery
  split
  case isTrue hp =>
    have hk : ((gl.map (fun e => if e.1 = ing then (e.1, e.2.1 + a, u) else e)).map
        Prod.fst) = gl.map Prod.fst :=
      map_fst_map_ite gl ing (fun v => (v.1 + a, u))
    rw [hk]
    exact h
  case isFalse hp =>
    have hn : gl.lookup ing = none := by
      cases hg : gl.lookup ing with
      | none => rfl
      | some v => rw [hg] at hp; simp at hp
    rw [List.map_append]
    rw [List.nodup_append]
    refine ⟨h, List.nodup_singleton ing, ?_⟩
    intro x hx hx2
    rw [List.map_cons, List.map_nil, List.mem_singleton] at hx2
    subst hx2
    obtain ⟨pq, hpq, hpqe⟩ := List.mem_map.mp hx
    rw [List.lookup_eq_none_iff] at hn
    have := hn pq hpq
    rw [hpqe] at this
    simp at this

theorem foldItems_nodup (uf : String → String) :
    ∀ (items : List (String × Int)) (gl : List (String × Int × String)),
      (gl.map Prod.fst).Nodup →
      (((items.foldl (fun acc item => updateGrocery acc item.1 item.2 (uf item.1))
          gl).map Prod.fst)).Nodup := by
  intro items
  induction items with
  | nil => intro gl h; exact h
  | cons it t ih =>
    intro gl h
    rw [List.foldl_cons]
    exact ih (updateGrocery gl it.1 it.2 (uf it.1)) (updateGrocery_nodup gl it.1 it.2 (uf it.1) h)

theorem foldItems_lookup (uf : String → String) :
    ∀ (items : List (String × Int)) (gl : List (String × Int × String)) (ing : String),
      (items.map Prod.fst).Nodup →
      (items.foldl (fun acc item => updateGrocery acc item.1 item.2 (uf item.1))
          gl).lookup ing =
        match items.lookup ing with
        | some amt => some ((((gl.lookup ing).map Prod.fst).getD 0) + amt, uf ing)
        | none => gl.lookup ing := by
  intro items
  induction items with
  | nil => intro gl ing _; rfl
  | cons it t ih =>
    intro gl ing hnd
    obtain ⟨a, amt⟩ := it
    rw [List.map_cons, List.nodup_cons] at hnd
    rw [List.foldl_cons, List.lookup_cons]
    by_cases hk : ing = a
    · have hbeq : (ing == a) = true := by simpa using hk
      simp only [hbeq]
      have htn : t.lookup ing = none := by
        rw [List.lookup_eq_none_iff]
        intro pq hpq
        simp only [bne_iff_ne, ne_eq]
        intro he
        apply hnd.1
        rw [hk] at he
        exact List.mem_map.mpr ⟨pq, hpq, he.symm⟩
      have hstep := ih (updateGrocery gl a amt (uf a)) ing hnd.2
      rw [htn] at hstep
      replace hstep : (t.foldl (fun acc item =>
          updateGrocery acc item.1 item.2 (uf item.1))
          (updateGrocery gl a amt (uf a))).lookup ing =
          (updateGrocery gl a amt (uf a)).lookup ing := hstep
      rw [hstep]
      subst hk
      exact updateGrocery_lookup_self gl ing amt (uf ing)
    · have hbeq : (ing == a) = false := by simpa using hk
      simp only [hbeq]
      have hstep := ih (updateGrocery gl a amt (uf a)) ing hnd.2
      rw [updateGrocery_lookup_other gl amt (uf a) hk] at hstep
      exact hstep

theorem addRecipe_nodup (gl : List (String × Int × String)) (r : Recipe)
    (h : (gl.map Prod.fst).Nodup) : ((addRecipe gl r).map Prod.fst).Nodup :=
  foldItems_nodup (fun s => (r.units.lookup s).getD "") r.ingredients gl h

theorem addRecipe_lookup (gl : List (String × Int × String)) (r : Recipe) (ing : String)
    (hnd : (r.ingredients.map Prod.fst).Nodup) :
    (addRecipe gl r).lookup ing =
      match r.ingredients.lookup ing with
      | some amt => some ((((gl.lookup ing).map Prod.fst).getD 0) + amt,
          (r.units.lookup ing).getD "")
      | none => gl.lookup ing :=
  foldItems_lookup (fun s => (r.units.lookup s).getD "") r.ingredients gl ing hnd

theorem specTotal_append (rs : List Recipe) (r : Recipe) (ing : String) :
    specTotal (rs ++ [r]) ing = specTotal rs ing + (r.ingredients.lookup ing).getD 0 := by
  rw [specTotal, specTotal, List.map_append, List.sum_append]
  simp

theorem specUnit_append (rs : List Recipe) (r : Recipe) (ing : String) :
    specUnit (rs ++ [r]) ing =
      if (r.ingredients.lookup ing).isSome then some ((r.units.lookup ing).getD "")
      else specUnit rs ing := by
  rw [specUnit, specUnit, List.filter_append]
  by_cases hp : (r.ingredients.lookup ing).isSome
  · rw [if_pos hp]
    have hf : ([r].filter (fun r2 => (r2.ingredients.lookup ing).isSome)) = [r] := by
      rw [List.filter_cons, if_pos hp]
      rfl
    rw [hf, List.getLast?_concat, Option.map_some']
  · rw [if_neg hp]
    have hf : ([r].filter (fun r2 => (r2.ingredients.lookup ing).isSome)) = [] := by
      rw [List.filter_cons, if_neg hp]
      rfl
    rw [hf, List.append_nil]

theorem specTotal_eq_zero (rs : List Recipe) (ing : String)
    (h : specUnit rs ing = none) : specTotal rs ing = 0 := by
  rw [specUnit] at h
  rw [Option.map_eq_none'] at h
  rw [List.getLast?_eq_none_iff] at h
  rw [specTotal]
  apply List.sum_eq_zero
  intro x hx
  obtain ⟨r, hr, he⟩ := List.mem_map.mp hx
  have hnp : ¬ ((r.ingredients.lookup ing).isSome = true) := by
    intro hs
    have hmf : r ∈ rs.filter (fun r2 => (r2.ingredients.lookup ing).isSome) :=
      List.mem_filter.mpr ⟨hr, hs⟩
    rw [h] at hmf
    cases hmf
  cases hl : r.ingredients.lookup ing with
  | none => rw [hl] at he; exact he.symm
  | some v => rw [hl] at hnp; simp at hnp

theorem foldAdd_spec (rs : List Recipe)
    (hing : ∀ r ∈ rs, (r.ingredients.map Prod.fst).Nodup) :
    (((rs.foldl addRecipe []).map Prod.fst)).Nodup ∧
    ∀ ing : String, (rs.foldl addRecipe []).lookup ing =
      (specUnit rs ing).map (fun u => (specTotal rs ing, u)) := by
  revert hing
  induction rs using List.reverseRecOn with
  | nil => intro _; exact ⟨List.nodup_nil, fun _ => rfl⟩
  | append_singleton l r ih =>
    intro hing
    have hl : ∀ r2 ∈ l, (r2.ingredients.map Prod.fst).Nodup := fun r2 h2 =>
      hing r2 (List.mem_append.mpr (Or.inl h2))
    have hr : (r.ingredients.map Prod.fst).Nodup :=
      hing r (List.mem_append.mpr (Or.inr (List.mem_singleton.mpr rfl)))
    obtain ⟨ihnd, ihlook⟩ := ih hl
    have hfold : (l ++ [r]).foldl addRecipe ([] : List (String × Int × String)) =
        addRecipe (l.foldl addRecipe []) r := by
      rw [List.foldl_append]
      rfl
    rw [hfold]
    refine ⟨addRecipe_nodup _ r ihnd, ?_⟩
    intro ing
    cases hil : r.ingredients.lookup ing with
    | some amt =>
      have hlk : (addRecipe (l.foldl addRecipe []) r).lookup ing =
          some ((((((l.foldl addRecipe []).lookup ing)).map Prod.fst).getD 0) + amt,
            (r.units.lookup ing).getD "") := by
        rw [addRecipe_lookup _ r ing hr, hil]
      rw [hlk, specUnit_append, specTotal_append, hil]
      rw [if_pos (show ((some amt : Option Int)).isSome = true from rfl), Option.map_some']
      cases hsu : specUnit l ing with
      | some u =>
        rw [ihlook ing, hsu, Option.map_some']
        simp
      | none =>
        rw [ihlook ing, hsu]
        rw [specTotal_eq_zero l ing hsu]
        simp
    | none =>
      have hlk : (addRecipe (l.foldl addRecipe []) r).lookup ing =
          (l.foldl addRecipe []).lookup ing := by
        rw [addRecipe_lookup _ r ing hr, hil]
      rw [hlk, ihlook ing, specUnit_append, specTotal_append, hil]
      rw [if_neg (by simp)]
      simp

theorem foldOpt_eq (ds : List (Option Recipe)) :
    ∀ gl : List (String × Int × String),
      ds.foldl (fun acc d => match d with | some r => addRecipe acc r | none => acc) gl =
        (ds.filterMap id).foldl addRecipe gl := by
  induction ds with
  | nil => intro _; rfl
  | cons d t ih =>
    intro gl
    cases d with
    | none =>
      rw [List.foldl_cons]
      have hfm : ((none :: t : List (Option Recipe)).filterMap id) = t.filterMap id := by
        rw [List.filterMap_cons]
        rfl
      rw [hfm]
      exact ih gl
    | some r =>
      rw [List.foldl_cons]
      have hfm : ((some r :: t : List (Option Recipe)).filterMap id) =
          r :: t.filterMap id := by
        rw [List.filterMap_cons]
        rfl
      rw [hfm, List.foldl_cons]
      exact ih (addRecipe gl r)

theorem generate_grocery_list_eq (p : MealPlanner) :
    p.generate_grocery_list =
      ((contributingRecipes p).foldl addRecipe []).insertionSort
        (fun a b => pyStrLe a.1 b.1 = true) := by
  rw [MealPlanner.generate_grocery_list, contributingRecipes, List.foldl_append]
  cases p.selected_lunch with
  | none =>
    rw [foldOpt_eq]
    rfl
  | some r =>
    rw [foldOpt_eq]
    rfl

/-- C6: for a plan whose contributing recipes list each ingredient at most once
(true of Python dict keys), `generate_grocery_list` returns key-distinct pairs
sorted lexicographically by ingredient name, and one lookup per ingredient:
its quantity is the sum over the lunch (when selected) and every filled dinner
slot in iteration order, its unit is the one of the last contributing recipe
that lists it, defaulting to `""`, and an ingredient no contributor lists is
absent. -/
theorem C6_aggregate (p : MealPlanner)
    (hing : ∀ r ∈ contributingRecipes p, (r.ingredients.map Prod.fst).Nodup) :
    ((p.generate_grocery_list.map Prod.fst).Nodup) ∧
    p.generate_grocery_list.Pairwise (fun a b : String × Int × String => a.1 ≤ b.1) ∧
    ∀ ing : String, p.generate_grocery_list.lookup ing =
      (specUnit (contributingRecipes p) ing).map
        (fun u => (specTotal (contributingRecipes p) ing, u)) := by
  obtain ⟨hnd, hlook⟩ := foldAdd_spec (contributingRecipes p) hing
  have hperm : (((contributingRecipes p).foldl addRecipe []).insertionSort
      (fun a b => pyStrLe a.1 b.1 = true)).Perm ((contributingRecipes p).foldl addRecipe []) :=
    List.perm_insertionSort _ _
  have hnd2 : (((((contributingRecipes p).foldl addRecipe []).insertionSort
      (fun a b => pyStrLe a.1 b.1 = true)).map Prod.fst)).Nodup :=
    ((hperm.map Prod.fst).nodup_iff).mpr hnd
  refine ⟨?_, ?_, ?_⟩
  · rw [generate_grocery_list_eq]
    exact hnd2
  · rw [generate_grocery_list_eq]
    exact (List.sorted_insertionSort
        (fun a b : String × Int × String => pyStrLe a.1 b.1 = true) _).imp
      (fun hab => (pyStrLe_iff_le _ _).mp hab)
  · intro ing
    rw [generate_grocery_list_eq]
    rw [lookup_eq_of_perm hnd2 hperm ing]
    exact hlook ing

/-- Witness for `C6_aggregate` on a plan holding the egg lunch and the
egg-and-ham dinner from the spec example. -/
theorem C6_aggregate_witness :
    ((eggPlanner.generate_grocery_list.map Prod.fst).Nodup) ∧
    eggPlanner.generate_grocery_list.Pairwise (fun a b : String × Int × String => a.1 ≤ b.1) ∧
    ∀ ing : String, eggPlanner.generate_grocery_list.lookup ing =
      (specUnit (contributingRecipes eggPlanner) ing).map
        (fun u => (specTotal (contributingRecipes eggPlanner) ing, u)) :=
  C6_aggregate eggPlanner (by decide)
